import Mathlib

/-
  Verification development for the allsorts-tools glyph-position engine
  (src/glyph.rs) and SVG symbol/path writer (src/writer.rs).

  Machine integers (i16/i32/u16/usize) are modelled as Int/Nat; the source
  performs no wrapping arithmetic on the quantities modelled here (i16 anchor
  coordinates are widened to i32 before any arithmetic, and advances are sums
  of a handful of i16-range values, far below i32 overflow).
-/

set_option maxHeartbeats 1000000
set_option maxRecDepth 100000

namespace AllsortsTools

/-- Text direction, from src/glyph.rs (enum TextDirection). -/
inductive TextDirection
  | leftToRight
  | rightToLeft
deriving Repr, DecidableEq

/-- An anchor point in font design units. The source stores i16 coordinates and
widens them with i32::from before every use; we model the widened value. -/
structure AnchorPoint where
  x : Int
  y : Int
deriving Repr, DecidableEq

/-- Attachment classification carried by a shaped glyph
(allsorts gpos::Attachment, as consumed by src/glyph.rs). Indices are usize. -/
inductive Attachment
  | none
  | markAnchor (base_index : Nat) (base_anchor mark_anchor : AnchorPoint)
  | markOverprint (base_index : Nat)
  | cursiveAnchor (exit_glyph_index : Nat) (rtl_flag : Bool)
      (exit_glyph_anchor entry_glyph_anchor : AnchorPoint)
deriving Repr, DecidableEq

/-- Position adjustment applied during shaping (allsorts gpos::Placement as
consumed by src/glyph.rs: None or Distance(i32, i32)). -/
inductive Placement
  | none
  | distance (dx dy : Int)
deriving Repr, DecidableEq

/-- Origin of a shaped glyph (allsorts gsub::GlyphOrigin). -/
inductive GlyphOrigin
  | char (c : Char)
  | direct
deriving Repr, DecidableEq

/-- The shaped-glyph record (allsorts gpos::Info together with the RawGlyph
fields the code under verification reads: glyph_index, kerning, unicodes,
is_vert_alt and the fields serialized by the SVG writer's data attributes). -/
structure Info where
  glyph_index : Nat
  attachment : Attachment
  placement : Placement
  kerning : Int
  is_vert_alt : Bool
  unicodes : List Char
  liga_component_pos : Nat
  glyph_origin : GlyphOrigin
  small_caps : Bool
  multi_subst_dup : Bool
  fake_bold : Bool
  fake_italic : Bool
deriving Repr, DecidableEq

/-- GlyphPosition from src/glyph.rs; cursive_attachment is Option of a u16. -/
structure GlyphPosition where
  hori_advance : Int
  vert_advance : Int
  x_offset : Int
  y_offset : Int
  cursive_attachment : Option Nat
deriving Repr, DecidableEq

/-- GlyphPosition::default(): all zero, no cursive link. -/
instance : Inhabited GlyphPosition := ⟨⟨0, 0, 0, 0, Option.none⟩⟩

/-- Error kinds produced by calculate_glyph_positions (the source returns
BoxError; badIndex is ParseError::BadIndex, missingMetric is the
"no horizontal advance for glyph" string error from glyph_advance, and
indexOverflow is the TryFromIntError of u16::try_from(i)). -/
inductive PosError
  | badIndex
  | missingMetric (glyph_index : Nat)
  | indexOverflow
deriving Repr, DecidableEq

/-- The external font collaborator: metrics queried by glyph_advance plus the
hhea ascender/descender fallback values. The upright-character classifier
crate::unicode::is_upright_char is repository code not present under src/, so
it is carried here as part of the opaque environment (the spec describes it
only as the "upright" script-category test for vertical layout). -/
structure FontEnv where
  horizontal_advance : Nat → Option Int
  vertical_advance : Nat → Option Int
  ascender : Int
  descender : Int
  upright_char : Char → Bool

/-- is_upright_glyph from src/glyph.rs. -/
def is_upright_glyph (env : FontEnv) (info : Info) : Bool :=
  info.is_vert_alt ||
    (match info.unicodes.head? with
     | some c => env.upright_char c
     | none => false)

/-- glyph_advance from src/glyph.rs: vertical advance (with
ascender-descender fallback) for upright glyphs in vertical layout, otherwise
horizontal advance (erroring when absent); kerning added; packed as
(hori, vert) with the vertical flag selecting the axis. -/
def glyph_advance (env : FontEnv) (info : Info) (vertical : Bool) :
    Except PosError (Int × Int) :=
  match
    (if vertical && is_upright_glyph env info then
      Except.ok
        (((env.vertical_advance info.glyph_index).getD
            (env.ascender - env.descender)) + info.kerning)
    else
      match env.horizontal_advance info.glyph_index with
      | some a => Except.ok (a + info.kerning)
      | none => Except.error (PosError.missingMetric info.glyph_index))
  with
  | .error e => .error e
  | .ok advance => .ok (if vertical then (0, advance) else (advance, 0))

/-- State threaded through the first pass of calculate_glyph_positions. -/
structure Pass1State where
  positions : List GlyphPosition
  has_marks : Bool
  has_cursive_connection : Bool
deriving Repr, DecidableEq

/-- One iteration of the first pass of calculate_glyph_positions
(src/glyph.rs lines 85-134): advance lookup, then dispatch on attachment. -/
def firstPassStep (env : FontEnv) (vertical : Bool) (infos : List Info)
    (i : Nat) (info : Info) (st : Pass1State) : Except PosError Pass1State :=
  match glyph_advance env info vertical with
  | .error e => .error e
  | .ok (hori_advance, vert_advance) =>
    match info.attachment with
    | .none =>
      match info.placement with
      | .none =>
        .ok { st with positions :=
          st.positions.set i ⟨hori_advance, vert_advance, 0, 0, Option.none⟩ }
      | .distance dx dy =>
        .ok { st with positions :=
          st.positions.set i ⟨hori_advance, vert_advance, dx, dy, Option.none⟩ }
    | .markAnchor base_index base_anchor mark_anchor =>
      match infos[base_index]? with
      | some base_info =>
        let dxy : Int × Int :=
          match base_info.placement with
          | .none => (0, 0)
          | .distance dx dy => (dx, dy)
        let offset_x := base_anchor.x - mark_anchor.x + dxy.1
        let offset_y := base_anchor.y - mark_anchor.y + dxy.2
        .ok { st with
          has_marks := true,
          positions := st.positions.set i
            ⟨hori_advance, vert_advance, offset_x, offset_y, Option.none⟩ }
      | none => .error PosError.badIndex
    | .markOverprint base_index =>
      match infos[base_index]? with
      | some _ => .ok { st with has_marks := true }
      | none => .error PosError.badIndex
    | .cursiveAnchor exit_glyph_index _ _ _ =>
      match infos[exit_glyph_index]? with
      | some _ =>
        if i < 65536 then
          let pexit := st.positions.getD exit_glyph_index default
          let positions := st.positions.set exit_glyph_index
            { pexit with cursive_attachment := some i }
          let pi := positions.getD i default
          let positions := positions.set i
            { pi with hori_advance := hori_advance, vert_advance := vert_advance }
          .ok { st with has_cursive_connection := true, positions := positions }
        else .error PosError.indexOverflow
      | none => .error PosError.badIndex

/-- The indexed fold of the first pass (for (i, info) in infos.iter().enumerate()). -/
def firstPassGo (env : FontEnv) (vertical : Bool) (infos : List Info) :
    Nat → List Info → Pass1State → Except PosError Pass1State
  | _, [], st => .ok st
  | i, info :: rest, st =>
    match firstPassStep env vertical infos i info st with
    | .ok st' => firstPassGo env vertical infos (i + 1) rest st'
    | .error e => .error e

/-- First pass of calculate_glyph_positions, starting from a vec of default
positions the length of the input. -/
def firstPass (env : FontEnv) (vertical : Bool) (infos : List Info) :
    Except PosError Pass1State :=
  firstPassGo env vertical infos 0 infos
    ⟨List.replicate infos.length default, false, false⟩

/-- adjust_cursive_chain from src/glyph.rs: adds delta to y_offset and follows
cursive_attachment links. The source recursion carries no cycle guard (spec
design note: cyclic input diverges); the fuel, instantiated with the sequence
length at the call site, is exhausted only on cyclic link chains, which covers
every terminating execution of the source. The unused direction and infos
parameters of the source function are dropped. -/
def adjust_cursive_chain : Nat → Int → Nat → List GlyphPosition → List GlyphPosition
  | 0, _, _, positions => positions
  | Nat.succ fuel, delta, index, positions =>
    let position := positions.getD index default
    let positions := positions.set index
      { position with y_offset := position.y_offset + delta }
    match position.cursive_attachment with
    | some next_index => adjust_cursive_chain fuel delta next_index positions
    | none => positions

/-- The if-let tail of each cursive branch: follow the adjusted glyph's
cursive_attachment link (read back from the updated vec) into
adjust_cursive_chain, if present. -/
def chainStep (fuel : Nat) (dy : Int) (target : Nat)
    (positions : List GlyphPosition) : List GlyphPosition :=
  match (positions.getD target default).cursive_attachment with
  | some linked_index => adjust_cursive_chain fuel dy linked_index positions
  | none => positions

/-- One iteration of the cursive-attachment pass (src/glyph.rs lines 139-220). -/
def cursivePassStep (direction : TextDirection) (fuel : Nat) (i : Nat)
    (info : Info) (positions : List GlyphPosition) : List GlyphPosition :=
  match info.attachment with
  | .cursiveAnchor exit_glyph_index rtl_flag exit_glyph_anchor entry_glyph_anchor =>
    let fs := if i < exit_glyph_index then (i, exit_glyph_index) else (exit_glyph_index, i)
    let first_glyph_index := fs.1
    let second_glyph_index := fs.2
    let positions :=
      match direction with
      | .leftToRight =>
        let p := positions.getD first_glyph_index default
        positions.set first_glyph_index { p with hori_advance := entry_glyph_anchor.x }
      | .rightToLeft =>
        let p := positions.getD first_glyph_index default
        positions.set first_glyph_index
          { p with hori_advance := p.hori_advance + entry_glyph_anchor.x }
    let dy := exit_glyph_anchor.y - entry_glyph_anchor.y
    if rtl_flag then
      let pf := positions.getD first_glyph_index default
      let psec := positions.getD second_glyph_index default
      let positions := positions.set first_glyph_index
        { pf with y_offset := pf.y_offset + (dy + psec.y_offset) }
      chainStep fuel dy first_glyph_index positions
    else
      let pf := positions.getD first_glyph_index default
      let psec := positions.getD second_glyph_index default
      let positions := positions.set second_glyph_index
        { psec with y_offset := psec.y_offset + (dy + pf.y_offset) }
      chainStep fuel dy second_glyph_index positions
  | _ => positions

/-- The indexed fold of the cursive pass. -/
def cursivePassGo (direction : TextDirection) (fuel : Nat) :
    Nat → List Info → List GlyphPosition → List GlyphPosition
  | _, [], positions => positions
  | i, info :: rest, positions =>
    cursivePassGo direction fuel (i + 1) rest
      (cursivePassStep direction fuel i info positions)

/-- sum_advance from src/glyph.rs: folds (hori, vert) sums over an optional
slice, giving (0, 0) when the slice lookup failed. -/
def sum_advance (positions : Option (List GlyphPosition)) : Int × Int :=
  match positions with
  | none => (0, 0)
  | some p =>
    p.foldl (fun acc pos => (acc.1 + pos.hori_advance, acc.2 + pos.vert_advance)) (0, 0)

/-- Vec::get with a Range (positions.get(a..b)): Some slice iff a ≤ b ≤ len. -/
def rangeGet (l : List GlyphPosition) (a b : Nat) : Option (List GlyphPosition) :=
  if a ≤ b ∧ b ≤ l.length then some ((l.drop a).take (b - a)) else none

/-- One iteration of the mark pass (src/glyph.rs lines 226-261). -/
def markPassStep (direction : TextDirection) (i : Nat) (info : Info)
    (positions : List GlyphPosition) : List GlyphPosition :=
  match info.attachment with
  | .markAnchor base_index _ _ =>
    let base_pos := positions.getD base_index default
    let adv :=
      match direction with
      | .leftToRight => sum_advance (rangeGet positions base_index i)
      | .rightToLeft => sum_advance (rangeGet positions i base_index)
    let position := positions.getD i default
    let position :=
      { position with x_offset := position.x_offset + base_pos.x_offset,
                      y_offset := position.y_offset + base_pos.y_offset }
    let position :=
      match direction with
      | .leftToRight =>
        { position with x_offset := position.x_offset - adv.1,
                        y_offset := position.y_offset - adv.2 }
      | .rightToLeft =>
        { position with x_offset := position.x_offset + adv.1,
                        y_offset := position.y_offset + adv.2 }
    positions.set i position
  | .markOverprint base_index =>
    let base_pos := positions.getD base_index default
    let position := positions.getD i default
    positions.set i
      { position with x_offset := base_pos.x_offset, y_offset := base_pos.y_offset }
  | _ => positions

/-- The indexed fold of the mark pass. -/
def markPassGo (direction : TextDirection) :
    Nat → List Info → List GlyphPosition → List GlyphPosition
  | _, [], positions => positions
  | i, info :: rest, positions =>
    markPassGo direction (i + 1) rest (markPassStep direction i info positions)

/-- calculate_glyph_positions from src/glyph.rs: first placement pass, then
the cursive pass when a cursive connection was seen, then the mark pass when a
mark was seen. -/
def calculate_glyph_positions (env : FontEnv) (infos : List Info)
    (direction : TextDirection) (vertical : Bool) :
    Except PosError (List GlyphPosition) :=
  match firstPass env vertical infos with
  | .error e => .error e
  | .ok st =>
    let positions :=
      if st.has_cursive_connection then
        cursivePassGo direction infos.length 0 infos st.positions
      else st.positions
    let positions :=
      if st.has_marks then markPassGo direction 0 infos positions else positions
    .ok positions

/-- The advance components of a position, invariant under the mark pass. -/
def advPair (p : GlyphPosition) : Int × Int := (p.hori_advance, p.vert_advance)

/-- The vertical-advance component, invariant under the cursive pass. -/
def vertAdv (p : GlyphPosition) : Int := p.vert_advance

/-- Whether an attachment's base/exit index is within an n-element sequence
(the bound checks of the first pass). -/
def attachmentInRange (n : Nat) : Attachment → Bool
  | .none => true
  | .markAnchor base_index _ _ => base_index < n
  | .markOverprint base_index => base_index < n
  | .cursiveAnchor exit_glyph_index _ _ _ => exit_glyph_index < n

/-- Mark attachments (the two attachment kinds the mark pass rewrites). -/
def isMarkAttachment : Attachment → Bool
  | .markAnchor _ _ _ => true
  | .markOverprint _ => true
  | _ => false

/-- Cursive attachments. -/
def isCursiveAttachment : Attachment → Bool
  | .cursiveAnchor _ _ _ _ => true
  | _ => false

/-- The (dx, dy) read off a Placement (the match of the MarkAnchor branch of
the first pass). -/
def placementDistance : Placement → Int × Int
  | .none => (0, 0)
  | .distance dx dy => (dx, dy)

/-- Convenience constructor for concrete Infos: given glyph index, attachment
and placement, with zero kerning and all flags clear. -/
def mkInfo (gid : Nat) (att : Attachment) (pl : Placement) : Info :=
  ⟨gid, att, pl, 0, false, [], 0, GlyphOrigin.direct, false, false, false, false⟩

instance : Inhabited Info := ⟨mkInfo 0 Attachment.none Placement.none⟩

/-! ### SVG writer model (src/writer.rs)

Coordinates flowing through the writer are f32 in the source; they are
idealized here as rationals (exact for the integer font-unit inputs and the
scale/flip transforms the tools construct), and Rust's f32 Display is
idealized by the decimal/`fraction rendering of fmtRat. The claims settled
over this model are structural (element and visit counts, determinism,
path-string suppression), not numeric-formatting facts. -/

/-- Decimal digit character. -/
def digitChar (n : Nat) : Char := Char.ofNat (48 + n % 10)

/-- Worker for natDigits: the recursion on n / 10 phrased as structural
recursion on a fuel bound (any fuel at least the digit count gives the same
value; natDigits passes n itself, which always suffices, so the fuel-out
leaf is unreachable on its calls). -/
def natDigitsAux : Nat → Nat → List Char
  | 0, n => [digitChar n]
  | fuel + 1, n =>
    if n < 10 then [digitChar n]
    else natDigitsAux fuel (n / 10) ++ [digitChar (n % 10)]

/-- Decimal digits of a natural number, most significant first (the digit
sequence Rust's integer Display emits). -/
def natDigits (n : Nat) : List Char := natDigitsAux n n

/-- Rust Display of an integer: optional minus sign then decimal digits. -/
def fmtInt (i : Int) : List Char :=
  if i < 0 then '-' :: natDigits i.natAbs else natDigits i.natAbs

/-- String form of an integer. -/
def istr (i : Int) : String := String.mk (fmtInt i)

/-- String form of a natural number. -/
def nstr (n : Nat) : String := String.mk (natDigits n)

/-- Rendering of a rational coordinate (idealization of Rust's f32 Display:
integral values render as integers, which is all the reference-test paths
contain; non-integral values render as num/den). -/
def fmtRat (q : ℚ) : List Char :=
  if q.den = 1 then fmtInt q.num else fmtInt q.num ++ '/' :: natDigits q.den

/-- String form of a rational. -/
def qstr (q : ℚ) : String := String.mk (fmtRat q)

/-- The `as i32` cast of an f32: truncation toward zero. -/
def truncQ (q : ℚ) : Int :=
  if 0 ≤ q.num then Int.ofNat (q.num.toNat / q.den)
  else - Int.ofNat (q.num.natAbs / q.den)

/-- f32::round: round half away from zero, computed on the numerator and
denominator (|q| rounds to (2|num| + den) / (2 den), sign reattached). -/
def roundQ (q : ℚ) : Int :=
  if 0 ≤ q.num then Int.ofNat ((2 * q.num.toNat + q.den) / (2 * q.den))
  else - Int.ofNat ((2 * q.num.natAbs + q.den) / (2 * q.den))

/-- Addition on exact rationals, written out through mkRat so that concrete
writer computations reduce in the kernel (extensionally the field addition). -/
def rAdd (a b : ℚ) : ℚ := mkRat (a.num * b.den + b.num * a.den) (a.den * b.den)

/-- Subtraction on exact rationals (see rAdd). -/
def rSub (a b : ℚ) : ℚ := mkRat (a.num * b.den - b.num * a.den) (a.den * b.den)

/-- Multiplication on exact rationals (see rAdd). -/
def rMul (a b : ℚ) : ℚ := mkRat (a.num * b.num) (a.den * b.den)

/-- Absolute value of an exact rational. -/
def ratAbs (q : ℚ) : ℚ := if Rat.blt q 0 then Rat.neg q else q

/-- The Int → ℚ embedding. -/
def intToRat (i : Int) : ℚ := mkRat i 1

/-- pathfinder Matrix2x2F (row-major 2x2 transform). -/
structure Mat2 where
  m11 : ℚ
  m12 : ℚ
  m21 : ℚ
  m22 : ℚ
deriving Repr, DecidableEq

/-- Matrix * Vector2F. -/
def Mat2.apply (m : Mat2) (p : ℚ × ℚ) : ℚ × ℚ :=
  (rAdd (rMul m.m11 p.1) (rMul m.m12 p.2), rAdd (rMul m.m21 p.1) (rMul m.m22 p.2))

/-- extract_scale().x(): the column norm of pathfinder, exact (=|m11|) for the
axis-aligned scale/flip transforms the tools construct. -/
def Mat2.scaleX (m : Mat2) : ℚ := ratAbs m.m11

/-- extract_scale().y(), idealized as above (=|m22|). -/
def Mat2.scaleY (m : Mat2) : ℚ := ratAbs m.m22

/-- SVG margin (top, right, bottom, left), f32 fields idealized as ℚ. -/
structure Margin where
  top : ℚ
  right : ℚ
  bottom : ℚ
  left : ℚ
deriving Repr, DecidableEq

/-- RGBA colour with u8 components. -/
structure Colour where
  r : Nat
  g : Nat
  b : Nat
  a : Nat
deriving Repr, DecidableEq

/-- Lower-case hex digit. -/
def hexDigit (n : Nat) : Char :=
  if n < 10 then Char.ofNat (48 + n) else Char.ofNat (87 + n)

/-- Two-digit lower-case hex of a byte. -/
def hex2 (n : Nat) : String := String.mk [hexDigit (n / 16 % 16), hexDigit (n % 16)]

/-- Display for Colour: #rrggbb (alpha not shown). -/
def Colour.display (c : Colour) : String := "#" ++ hex2 c.r ++ hex2 c.g ++ hex2 c.b

/-- Colour::opacity() as an exact rational a/255 (the source divides in f32;
only its comparison with 1.0 and its Display are consumed). -/
def Colour.opacityQ (c : Colour) : ℚ := mkRat c.a 255

/-- Rendered opacity attribute value. -/
def Colour.opacityStr (c : Colour) : String := qstr c.opacityQ

/-- SVGMode from src/writer.rs. -/
inductive SVGMode
  | textRenderingTests (idPfx : String)
  | view (mark_origin : Bool) (margin : Margin) (fg bg : Option Colour)
deriving DecidableEq

/-- viewBox record from src/writer.rs. -/
structure ViewBox where
  x : Int
  y : Int
  width : Int
  height : Int
deriving Repr, DecidableEq

/-- Display for ViewBox. -/
def ViewBox.display (v : ViewBox) : String :=
  istr v.x ++ " " ++ istr v.y ++ " " ++ istr v.width ++ " " ++ istr v.height

/-- Symbol from src/writer.rs: name, accumulated path data (a Rust String,
modelled as its character list), the owning Info and the optional origin
marker. -/
structure SymbolE where
  glyph_name : String
  path : List Char
  info : Info
  origin : Option (ℚ × ℚ)
deriving DecidableEq

/-- Symbol::id: testcase-prefixed in reference-test mode. -/
def SymbolE.symId (s : SymbolE) (mode : SVGMode) : String :=
  match mode with
  | .textRenderingTests idPfx => idPfx ++ "." ++ s.glyph_name
  | .view _ _ _ _ => s.glyph_name

/-- Symbol::data: the key/value pairs inserted into the HashMap returned for
View mode (in source insertion order; empty in reference-test mode). The
randomized per-map iteration order of std HashMap is modelled by the
DataOrder parameter applied to this list at the rendering site. -/
def SymbolE.dataList (s : SymbolE) (mode : SVGMode) : List (String × String) :=
  match mode with
  | .textRenderingTests _ => []
  | .view _ _ _ _ =>
    (if isMarkAttachment s.info.attachment then [("data-mark", "true")] else [])
    ++ [("data-glyph-index", nstr s.info.glyph_index),
        ("data-liga-component-pos", nstr s.info.liga_component_pos),
        ("data-glyph-origin",
          match s.info.glyph_origin with
          | .char _ => "char"
          | .direct => "direct")]
    ++ (if s.info.small_caps then [("data-small-caps", "true")] else [])
    ++ (if s.info.multi_subst_dup then [("data-multi-subst-dup", "true")] else [])
    ++ (if s.info.is_vert_alt then [("data-is-vert-alt", "true")] else [])
    ++ (if s.info.fake_bold then [("data-fake-bold", "true")] else [])
    ++ (if s.info.fake_italic then [("data-fake-italic", "true")] else [])

/-- An iteration order of a HashMap's entries (std HashMap iteration is
seeded per map; any permutation of the inserted entries can be observed). -/
def DataOrder : Type := List (String × String) → List (String × String)

/-- Sink-state of the Symbols outline sink (src/writer.rs struct Symbols). -/
structure Symbols where
  transform : Mat2
  symbols : List SymbolE
  mode : SVGMode
  initial_move_to : Int × Int
  last_line_to : Option (Int × Int)
deriving DecidableEq

/-- current_path(): mutate the last symbol's path (the source unwraps; the
writer always pushes a symbol before visiting outlines, so the empty case is
unreachable in runs of glyphs_to_svg and modelled as a no-op). -/
def updateLastPath : List SymbolE → (List Char → List Char) → List SymbolE
  | [], _ => []
  | [s], f => [{ s with path := f s.path }]
  | a :: b :: rest, f => a :: updateLastPath (b :: rest) f

/-- The events an OutlineBuilder::visit drives into its sink. -/
inductive OutlineEvent
  | moveTo (p : ℚ × ℚ)
  | lineTo (p : ℚ × ℚ)
  | quadTo (c p : ℚ × ℚ)
  | curveTo (c1 c2 p : ℚ × ℚ)
  | close

/-- rfind(" L"): byte index of the last occurrence of the two-character
pattern space-L. -/
def rfindLL : List Char → Option Nat
  | a :: b :: rest =>
    (match rfindLL (b :: rest) with
     | some n => some (n + 1)
     | none => if a = ' ' ∧ b = 'L' then some 0 else none)
  | _ => none

/-- " M{},{}" chunk over integers (reference-test mode). -/
def chunkMI (p : Int × Int) : List Char :=
  ' ' :: 'M' :: (fmtInt p.1 ++ ',' :: fmtInt p.2)

/-- " L{},{}" chunk over integers (reference-test mode). -/
def chunkLI (p : Int × Int) : List Char :=
  ' ' :: 'L' :: (fmtInt p.1 ++ ',' :: fmtInt p.2)

/-- " M{},{}" chunk over rationals (View mode). -/
def chunkMQ (p : ℚ × ℚ) : List Char :=
  ' ' :: 'M' :: (fmtRat p.1 ++ ',' :: fmtRat p.2)

/-- " L{},{}" chunk over rationals (View mode). -/
def chunkLQ (p : ℚ × ℚ) : List Char :=
  ' ' :: 'L' :: (fmtRat p.1 ++ ',' :: fmtRat p.2)

/-- " Q{},{} {},{}" chunk over integers. -/
def chunkQI (c p : Int × Int) : List Char :=
  ' ' :: 'Q' :: (fmtInt c.1 ++ ',' :: fmtInt c.2 ++ ' ' :: fmtInt p.1 ++ ',' :: fmtInt p.2)

/-- " Q{},{} {},{}" chunk over rationals. -/
def chunkQQ (c p : ℚ × ℚ) : List Char :=
  ' ' :: 'Q' :: (fmtRat c.1 ++ ',' :: fmtRat c.2 ++ ' ' :: fmtRat p.1 ++ ',' :: fmtRat p.2)

/-- " C{},{} {},{} {},{}" chunk over integers. -/
def chunkCI (c1 c2 p : Int × Int) : List Char :=
  ' ' :: 'C' :: (fmtInt c1.1 ++ ',' :: fmtInt c1.2 ++ ' ' :: fmtInt c2.1 ++ ',' :: fmtInt c2.2
    ++ ' ' :: fmtInt p.1 ++ ',' :: fmtInt p.2)

/-- " C{},{} {},{} {},{}" chunk over rationals. -/
def chunkCQ (c1 c2 p : ℚ × ℚ) : List Char :=
  ' ' :: 'C' :: (fmtRat c1.1 ++ ',' :: fmtRat c1.2 ++ ' ' :: fmtRat c2.1 ++ ',' :: fmtRat c2.2
    ++ ' ' :: fmtRat p.1 ++ ',' :: fmtRat p.2)

/-- Truncate a transformed point to integers (the pervasive `as i32` of
reference-test mode). -/
def truncPt (p : ℚ × ℚ) : Int × Int := (truncQ p.1, truncQ p.2)

/-- The OutlineSink implementation for Symbols (src/writer.rs lines 527-625):
one transition of the path-accumulation state machine. -/
def sinkStep (s : Symbols) (e : OutlineEvent) : Symbols :=
  match e with
  | .moveTo p =>
    let point := s.transform.apply p
    (match s.mode with
     | .textRenderingTests _ =>
       let pt := truncPt point
       { s with initial_move_to := pt, last_line_to := Option.none,
                symbols := updateLastPath s.symbols (fun path => path ++ chunkMI pt) }
     | .view _ _ _ _ =>
       { s with symbols := updateLastPath s.symbols (fun path => path ++ chunkMQ point) })
  | .lineTo p =>
    let point := s.transform.apply p
    (match s.mode with
     | .textRenderingTests _ =>
       let pt := truncPt point
       { s with last_line_to := some pt,
                symbols := updateLastPath s.symbols (fun path => path ++ chunkLI pt) }
     | .view _ _ _ _ =>
       { s with symbols := updateLastPath s.symbols (fun path => path ++ chunkLQ point) })
  | .quadTo c p =>
    let control := s.transform.apply c
    let point := s.transform.apply p
    (match s.mode with
     | .textRenderingTests _ =>
       { s with last_line_to := Option.none,
                symbols := updateLastPath s.symbols
                  (fun path => path ++ chunkQI (truncPt control) (truncPt point)) }
     | .view _ _ _ _ =>
       { s with symbols := updateLastPath s.symbols (fun path => path ++ chunkQQ control point) })
  | .curveTo c1 c2 p =>
    let ctrl_from := s.transform.apply c1
    let ctrl_to := s.transform.apply c2
    let to_pt := s.transform.apply p
    (match s.mode with
     | .textRenderingTests _ =>
       { s with last_line_to := Option.none,
                symbols := updateLastPath s.symbols
                  (fun path => path ++ chunkCI (truncPt ctrl_from) (truncPt ctrl_to) (truncPt to_pt)) }
     | .view _ _ _ _ =>
       { s with symbols := updateLastPath s.symbols
                  (fun path => path ++ chunkCQ ctrl_from ctrl_to to_pt) })
  | .close =>
    let s :=
      match s.mode with
      | .textRenderingTests _ =>
        (match s.last_line_to with
         | some last_line_to =>
           if last_line_to = s.initial_move_to then
             { s with symbols := updateLastPath s.symbols (fun path =>
                 match rfindLL path with
                 | some m_pos => path.take m_pos
                 | none => path) }
           else s
         | none => s)
      | .view _ _ _ _ => s
    { s with symbols := updateLastPath s.symbols (fun path => path ++ [' ', 'Z']) }

/-- The external outline/naming collaborator (OutlineBuilder + GlyphName):
visit is modelled by the sink-event sequence it would drive, or its error. -/
structure OutlineSource where
  gid_to_glyph_name : Nat → Option String
  visit : Nat → Except String (List OutlineEvent)

/-- SVGWriter state (mode, transform, collected use placements). -/
structure SVGWriter where
  mode : SVGMode
  transform : Mat2
  usage : List (Nat × (ℚ × ℚ))
deriving DecidableEq

/-- SVGWriter::use_glyph. -/
def use_glyph (w : SVGWriter) (symbol_index : Nat) (x y : ℚ) : SVGWriter :=
  { w with usage := w.usage ++ [(symbol_index, w.transform.apply (x, y))] }

/-- SVGWriter::annotate(): View mode with mark_origin set. -/
def annotateFlag (w : SVGWriter) : Bool :=
  match w.mode with
  | .view true _ _ _ => true
  | _ => false

/-- Symbols::new_glyph: push an empty-path symbol, return its index. -/
def Symbols.new_glyph (s : Symbols) (glyph_name : String) (info : Info) : Symbols × Nat :=
  ({ s with symbols := s.symbols ++ [⟨glyph_name, [], info, Option.none⟩] },
   s.symbols.length)

/-- Symbols::annotate: record an origin marker on symbol index. -/
def Symbols.annotateAt (s : Symbols) (index : Nat) (p : ℚ × ℚ) : Symbols :=
  match s.symbols[index]? with
  | some sym => { s with symbols := s.symbols.set index { sym with origin := some p } }
  | none => s

/-- HashMap::get over the symbol map (keyed by glyph index; the map is only
read point-wise, never iterated, so an association list is an exact model). -/
def lookupSym (m : List (Nat × Nat)) (k : Nat) : Option Nat :=
  match m.find? (fun p => p.1 == k) with
  | some p => some p.2
  | none => Option.none

/-- HashMap::insert over the symbol map. -/
def insertSym (m : List (Nat × Nat)) (k v : Nat) : List (Nat × Nat) := (k, v) :: m

/-- State of the glyphs_to_svg_impl loop; visits is the (ghost) record of
glyph indices passed to builder.visit, the collaborator invocations claim C8
counts. -/
structure LoopState where
  writer : SVGWriter
  symbols : Symbols
  symbol_map : List (Nat × Nat)
  x : ℚ
  y : ℚ
  visits : List Nat
deriving DecidableEq

/-- One iteration of the glyphs_to_svg_impl loop (src/writer.rs lines 266-292). -/
def glyphsToSvgStep (builder : OutlineSource) (st : LoopState)
    (pair : Info × GlyphPosition) : Except String LoopState :=
  let info := pair.1
  let pos := pair.2
  let glyph_index := info.glyph_index
  match lookupSym st.symbol_map glyph_index with
  | some symbol_index =>
    .ok { st with
      writer := use_glyph st.writer symbol_index
        (rAdd st.x (intToRat pos.x_offset)) (rAdd st.y (intToRat pos.y_offset)),
      x := rAdd st.x (intToRat pos.hori_advance),
      y := rAdd st.y (intToRat pos.vert_advance) }
  | none =>
    let glyph_name := (builder.gid_to_glyph_name glyph_index).getD ("gid" ++ nstr glyph_index)
    let sn := st.symbols.new_glyph glyph_name info
    let symbol_index := sn.2
    let symbol_map := insertSym st.symbol_map glyph_index symbol_index
    match builder.visit glyph_index with
    | .error e => .error e
    | .ok events =>
      let symbols := events.foldl sinkStep sn.1
      let symbols :=
        if annotateFlag st.writer then
          symbols.annotateAt symbol_index (intToRat pos.x_offset, intToRat pos.y_offset)
        else symbols
      let writer := use_glyph st.writer symbol_index
        (rAdd st.x (intToRat pos.x_offset)) (rAdd st.y (intToRat pos.y_offset))
      .ok { writer := writer, symbols := symbols, symbol_map := symbol_map,
            x := rAdd st.x (intToRat pos.hori_advance),
            y := rAdd st.y (intToRat pos.vert_advance),
            visits := st.visits ++ [glyph_index] }

/-- The glyphs_to_svg_impl loop over the (Info, GlyphPosition) iterator. -/
def glyphsToSvgLoop (builder : OutlineSource) :
    List (Info × GlyphPosition) → LoopState → Except String LoopState
  | [], st => .ok st
  | p :: rest, st =>
    match glyphsToSvgStep builder st p with
    | .ok st' => glyphsToSvgLoop builder rest st'
    | .error e => .error e

/-- One serialized XML attribute. -/
def renderAttr (k v : String) : String := " " ++ k ++ "=\"" ++ v ++ "\""

/-- SVGWriter::margin. -/
def modeMargin (mode : SVGMode) : Margin :=
  match mode with
  | .textRenderingTests _ => ⟨0, 0, 0, 0⟩
  | .view _ margin _ _ => margin

/-- SVGWriter::fg_colour. -/
def fg_colour (mode : SVGMode) : Option Colour :=
  match mode with
  | .textRenderingTests _ => Option.none
  | .view _ _ fg _ => fg

/-- SVGWriter::bg_colour. -/
def bg_colour (mode : SVGMode) : Option Colour :=
  match mode with
  | .textRenderingTests _ => Option.none
  | .view _ _ _ bg => bg

/-- SVGWriter::view_box (src/writer.rs lines 369-391). -/
def view_box (mode : SVGMode) (transform : Mat2) (x_max ascender descender : ℚ) :
    ViewBox :=
  let margin := modeMargin mode
  let is_flipped := Rat.blt transform.m22 0
  let min_y := if is_flipped then Rat.neg ascender else descender
  let scale_x := transform.scaleX
  let scale_y := transform.scaleY
  ⟨roundQ (rMul (rSub 0 margin.left) scale_x),
   roundQ (rMul (rSub min_y margin.top) scale_y),
   roundQ (rMul (rAdd (rAdd x_max margin.left) margin.right) scale_x),
   roundQ (rMul (rAdd (rAdd (rSub ascender descender) margin.top) margin.bottom) scale_y)⟩

/-- SVGWriter::crosshair_path. -/
def crosshair_path (transform : Mat2) (origin : ℚ × ℚ) : String :=
  let x := origin.1
  let y := origin.2
  let crosshair_size := rMul 100 transform.scaleX
  let xl := rSub x crosshair_size
  let xr := rAdd x crosshair_size
  let yb := rSub y crosshair_size
  let yt := rAdd y crosshair_size
  "M" ++ qstr xl ++ "," ++ qstr y ++ " L" ++ qstr xr ++ "," ++ qstr y
    ++ " M" ++ qstr x ++ "," ++ qstr yb ++ " L" ++ qstr x ++ "," ++ qstr yt

/-- Serialization of one symbol element (the symbols loop of SVGWriter::end,
src/writer.rs lines 330-354): id, then the data attributes in the HashMap
iteration order ord, then overflow, the path child (with optional fill), and
the optional origin cross-hair path. -/
def renderSymbol (mode : SVGMode) (ord : DataOrder) (transform : Mat2)
    (sym : SymbolE) : String :=
  "<symbol" ++ renderAttr "id" (sym.symId mode)
    ++ String.join ((ord (sym.dataList mode)).map (fun kv => renderAttr kv.1 kv.2))
    ++ renderAttr "overflow" "visible" ++ ">"
    ++ "<path" ++ renderAttr "d" (String.mk sym.path)
    ++ (match fg_colour mode with
        | some colour =>
          renderAttr "fill" colour.display
            ++ (if colour.opacityQ ≠ 1 then renderAttr "fill-opacity" colour.opacityStr else "")
        | none => "")
    ++ "/>"
    ++ (match sym.origin with
        | some origin =>
          "<path" ++ renderAttr "d" (crosshair_path transform origin)
            ++ renderAttr "stroke" "red"
            ++ renderAttr "stroke-width" (qstr (rMul transform.scaleX 10)) ++ "/>"
        | none => "")
    ++ "</symbol>"

/-- Serialization of one use element (the usage loop of SVGWriter::end). -/
def renderUse (mode : SVGMode) (symbols : List SymbolE) (u : Nat × (ℚ × ℚ)) : String :=
  let sym := symbols.getD u.1 ⟨"", [], default, Option.none⟩
  "<use" ++ renderAttr "xlink:href" ("#" ++ sym.symId mode)
    ++ renderAttr "x" (istr (roundQ u.2.1))
    ++ renderAttr "y" (istr (roundQ u.2.2)) ++ "/>"

/-- SVGWriter::end (src/writer.rs lines 307-367): declaration, svg element
with viewBox, optional background rect, symbol definitions, use placements.
The xmlwriter serialization (quoting/indentation) is idealized as plain
concatenation; ord is the HashMap iteration order consumed by the symbol
data attributes. -/
def endDoc (w : SVGWriter) (ord : DataOrder) (x_max : ℚ)
    (ascender descender : Int) (symbols : Symbols) : String :=
  let vb := view_box w.mode w.transform x_max (intToRat ascender) (intToRat descender)
  "<?xml version=\"1.0\" encoding=\"UTF-8\"?>"
    ++ "<svg" ++ renderAttr "version" "1.1"
    ++ renderAttr "xmlns" "http://www.w3.org/2000/svg"
    ++ renderAttr "xmlns:xlink" "http://www.w3.org/1999/xlink"
    ++ renderAttr "viewBox" vb.display ++ ">"
    ++ (match bg_colour w.mode with
        | some colour =>
          "<rect" ++ renderAttr "x" (istr vb.x) ++ renderAttr "y" (istr vb.y)
            ++ renderAttr "width" (istr vb.width) ++ renderAttr "height" (istr vb.height)
            ++ renderAttr "fill" colour.display
            ++ (if colour.opacityQ ≠ 1 then renderAttr "fill-opacity" colour.opacityStr else "")
            ++ "/>"
        | none => "")
    ++ String.join (symbols.symbols.map (renderSymbol w.mode ord w.transform))
    ++ String.join (w.usage.map (renderUse w.mode symbols.symbols))
    ++ "</svg>"

/-- SVGWriter::glyphs_to_svg: resolve positions (the in-repo revision of the
position engine, calculate_glyph_positions with vertical=false), pair them
with the infos (reversed for right-to-left), run the loop, serialize. -/
def glyphs_to_svg (mode : SVGMode) (transform : Mat2) (ord : DataOrder)
    (builder : OutlineSource) (env : FontEnv) (infos : List Info)
    (direction : TextDirection) : Except String String :=
  match calculate_glyph_positions env infos direction false with
  | .error _ => .error "error calculating glyph positions"
  | .ok glyph_positions =>
    let pairs := infos.zip glyph_positions
    let pairs :=
      match direction with
      | .leftToRight => pairs
      | .rightToLeft => pairs.reverse
    let st0 : LoopState :=
      ⟨⟨mode, transform, []⟩, ⟨transform, [], mode, (0, 0), Option.none⟩, [], 0, 0, []⟩
    match glyphsToSvgLoop builder pairs st0 with
    | .error e => .error e
    | .ok st =>
      .ok (endDoc st.writer ord st.x env.ascender env.descender st.symbols)

/-- Decidable equality for Except results (used by concrete-input proofs). -/
instance instDecEqExcept {eps alpha : Type} [DecidableEq eps] [DecidableEq alpha] :
    DecidableEq (Except eps alpha) := fun a b =>
  match a, b with
  | .error e, .error f =>
    if h : e = f then .isTrue (by rw [h]) else .isFalse (fun hh => h (Except.error.inj hh))
  | .ok x, .ok y =>
    if h : x = y then .isTrue (by rw [h]) else .isFalse (fun hh => h (Except.ok.inj hh))
  | .error _, .ok _ => .isFalse (fun hh => Except.noConfusion hh)
  | .ok _, .error _ => .isFalse (fun hh => Except.noConfusion hh)

/-! ### Concrete inputs used by witnesses and counterexamples -/

/-- A font with every horizontal advance 10 and no vertical metrics. -/
def envTen : FontEnv := ⟨fun _ => some 10, fun _ => Option.none, 800, -200, fun _ => false⟩

/-- A font with every horizontal advance 100 and no vertical metrics. -/
def envHundred : FontEnv := ⟨fun _ => some 100, fun _ => Option.none, 800, -200, fun _ => false⟩

/-- A font reporting no advances at all (ascender 800, descender -200). -/
def envNoMetrics : FontEnv := ⟨fun _ => Option.none, fun _ => Option.none, 800, -200, fun _ => false⟩

/-- An upright (is_vert_alt) glyph with no attachment. -/
def infoUpright : Info :=
  ⟨0, Attachment.none, Placement.none, 0, true, [], 0, GlyphOrigin.direct,
   false, false, false, false⟩

/-- The two-glyph cursive sequence of the spec's cursive-alignment property:
glyph 0 carries CursiveAnchor(exit=1, rtl=false, exit=(100,50), entry=(0,0)),
glyph 1 is plain. -/
def infosCursivePair : List Info :=
  [mkInfo 0 (Attachment.cursiveAnchor 1 false ⟨100, 50⟩ ⟨0, 0⟩) Placement.none,
   mkInfo 1 Attachment.none Placement.none]

/-- A plain base followed by a mark anchored on it with equal anchors. -/
def infosMarkAfterBase : List Info :=
  [mkInfo 0 Attachment.none Placement.none,
   mkInfo 1 (Attachment.markAnchor 0 ⟨0, 0⟩ ⟨0, 0⟩) Placement.none]

/-- The resolved positions of infosMarkAfterBase under envHundred. -/
def psMarkAfterBase : List GlyphPosition :=
  [⟨100, 0, 0, 0, Option.none⟩, ⟨100, 0, -100, 0, Option.none⟩]

/-- An overprint glyph whose base is a later mark (the base's offset changes
after the overprint copy). -/
def infosOverprintSwap : List Info :=
  [mkInfo 0 (Attachment.markOverprint 1) Placement.none,
   mkInfo 1 (Attachment.markAnchor 0 ⟨5, 5⟩ ⟨0, 0⟩) Placement.none]

/-- An overprint glyph that is the lower-index member of a cursive pair. -/
def infosOverprintCursive : List Info :=
  [mkInfo 0 (Attachment.markOverprint 1) Placement.none,
   mkInfo 1 (Attachment.cursiveAnchor 0 false ⟨0, 0⟩ ⟨7, 0⟩) Placement.none]

/-- A plain base followed by an overprint mark attached to it. -/
def infosOverprintSimple : List Info :=
  [mkInfo 0 Attachment.none Placement.none,
   mkInfo 1 (Attachment.markOverprint 0) Placement.none]

/-- A mark whose base index 5 is out of range. -/
def infosBadIndex : List Info :=
  [mkInfo 0 (Attachment.markAnchor 5 ⟨0, 0⟩ ⟨0, 0⟩) Placement.none]

/-- The identity transform. -/
def idMat : Mat2 := ⟨1, 0, 0, 1⟩

/-- A builder producing empty outlines, naming every glyph "ell". -/
def builderEmpty : OutlineSource := ⟨fun _ => some "ell", fun _ => Except.ok []⟩

/-- A builder producing a small triangle-ish outline for every glyph. -/
def builderLine : OutlineSource :=
  ⟨fun _ => some "ell",
   fun _ => Except.ok
     [OutlineEvent.moveTo (0, 0), OutlineEvent.lineTo (5, 0), OutlineEvent.close]⟩

/-- Plain View mode: no origin markers, zero margin, no colours. -/
def viewPlain : SVGMode := SVGMode.view false ⟨0, 0, 0, 0⟩ Option.none Option.none

/-- Reference-test mode with testcase prefix "tc". -/
def trtMode : SVGMode := SVGMode.textRenderingTests "tc"

/-- One plain glyph with glyph index 3. -/
def infosSingle : List Info := [mkInfo 3 Attachment.none Placement.none]

/-- The single (Info, GlyphPosition) pair fed to the writer-loop witness. -/
def pairsSingle : List (Info × GlyphPosition) :=
  [(mkInfo 3 Attachment.none Placement.none, ⟨10, 0, 0, 0, Option.none⟩)]

/-- The loop state produced by running pairsSingle through the writer loop
from the empty state (builderEmpty, reference-test mode, identity transform). -/
def loopStateSingle : LoopState :=
  ⟨⟨trtMode, idMat, [(0, (0, 0))]⟩,
   ⟨idMat, [⟨"ell", [], mkInfo 3 Attachment.none Placement.none, Option.none⟩],
    trtMode, (0, 0), Option.none⟩,
   [(3, 0)], 10, 0, [3]⟩

/-- Two plain glyphs sharing glyph index 3. -/
def infosDouble : List Info :=
  [mkInfo 3 Attachment.none Placement.none, mkInfo 3 Attachment.none Placement.none]

/-! ### List helper lemmas -/

theorem getD_set_eq {α : Type} (l : List α) (i : Nat) (a d : α)
    (h : i < l.length) : (l.set i a).getD i d = a := by
  induction l generalizing i with
  | nil => simp at h
  | cons hd tl ih =>
    cases i with
    | zero => rfl
    | succ n => simpa using ih n (by simpa using h)

theorem getD_set_ne {α : Type} (l : List α) {i j : Nat} (a d : α)
    (h : i ≠ j) : (l.set i a).getD j d = l.getD j d := by
  induction l generalizing i j with
  | nil => simp
  | cons hd tl ih =>
    cases i with
    | zero =>
      cases j with
      | zero => exact absurd rfl h
      | succ m => rfl
    | succ n =>
      cases j with
      | zero => rfl
      | succ m => simpa using ih (fun hh => h (by omega))

theorem set_getD {α : Type} (l : List α) (i : Nat) (d : α) :
    l.set i (l.getD i d) = l := by
  induction l generalizing i with
  | nil => rfl
  | cons hd tl ih =>
    cases i with
    | zero => rfl
    | succ n => exact congrArg (List.cons hd) (ih n)

theorem getD_map {α β : Type} (f : α → β) (l : List α) (i : Nat) (d : α) :
    (l.map f).getD i (f d) = f (l.getD i d) := by
  induction l generalizing i with
  | nil => rfl
  | cons hd tl ih =>
    cases i with
    | zero => rfl
    | succ n => exact ih n

theorem map_set {α β : Type} (f : α → β) (l : List α) (i : Nat) (a : α) :
    (l.set i a).map f = (l.map f).set i (f a) := by
  induction l generalizing i with
  | nil => rfl
  | cons hd tl ih =>
    cases i with
    | zero => rfl
    | succ n => exact congrArg (List.cons (f hd)) (ih n)

theorem getD_eq_default_of_le {α : Type} (l : List α) {i : Nat} (d : α)
    (h : l.length ≤ i) : l.getD i d = d := by
  induction l generalizing i with
  | nil => cases i <;> rfl
  | cons hd tl ih =>
    cases i with
    | zero => simp at h
    | succ n => simpa using ih (by simpa using h)

/-! ### Length preservation through the three passes (claim C3 groundwork) -/

theorem advMap_set (l : List GlyphPosition) (i : Nat) (v : GlyphPosition)
    (h : advPair v = advPair (l.getD i default)) :
    (l.set i v).map advPair = l.map advPair := by
  rw [map_set, h, ← getD_map advPair l i default, set_getD]

theorem length_firstPassStep {env : FontEnv} {vertical : Bool} {infos : List Info}
    {i : Nat} {info : Info} {st st' : Pass1State}
    (h : firstPassStep env vertical infos i info st = .ok st') :
    st'.positions.length = st.positions.length := by
  unfold firstPassStep at h
  repeat' split at h
  all_goals cases h
  all_goals simp [List.length_set]

theorem length_firstPassGo {env : FontEnv} {vertical : Bool} {infos : List Info}
    {l : List Info} {i : Nat} {st st' : Pass1State}
    (h : firstPassGo env vertical infos i l st = .ok st') :
    st'.positions.length = st.positions.length := by
  induction l generalizing i st with
  | nil => cases h; rfl
  | cons hd tl ih =>
    unfold firstPassGo at h
    split at h
    · next st'' heq =>
      exact (ih h).trans (length_firstPassStep heq)
    · cases h

theorem length_firstPass {env : FontEnv} {vertical : Bool} {infos : List Info}
    {st : Pass1State} (h : firstPass env vertical infos = .ok st) :
    st.positions.length = infos.length := by
  simpa using length_firstPassGo h

theorem length_adjust_cursive_chain (fuel : Nat) (delta : Int) (index : Nat)
    (positions : List GlyphPosition) :
    (adjust_cursive_chain fuel delta index positions).length = positions.length := by
  induction fuel generalizing index positions with
  | zero => rfl
  | succ n ih =>
    simp only [adjust_cursive_chain]
    split
    · simp [ih, List.length_set]
    · simp [List.length_set]

theorem length_chainStep (fuel : Nat) (dy : Int) (target : Nat)
    (positions : List GlyphPosition) :
    (chainStep fuel dy target positions).length = positions.length := by
  unfold chainStep
  split
  · simp [length_adjust_cursive_chain]
  · rfl

theorem length_cursivePassStep (direction : TextDirection) (fuel : Nat) (i : Nat)
    (info : Info) (positions : List GlyphPosition) :
    (cursivePassStep direction fuel i info positions).length = positions.length := by
  unfold cursivePassStep
  repeat' split
  all_goals simp [length_chainStep, List.length_set]

theorem length_cursivePassGo (direction : TextDirection) (fuel : Nat)
    (l : List Info) (i : Nat) (positions : List GlyphPosition) :
    (cursivePassGo direction fuel i l positions).length = positions.length := by
  induction l generalizing i positions with
  | nil => rfl
  | cons hd tl ih =>
    unfold cursivePassGo
    rw [ih, length_cursivePassStep]

theorem advMap_markPassStep (direction : TextDirection) (i : Nat) (info : Info)
    (positions : List GlyphPosition) :
    (markPassStep direction i info positions).map advPair = positions.map advPair := by
  unfold markPassStep
  repeat' split
  all_goals first
  | rfl
  | (apply advMap_set; simp [advPair])

theorem advMap_markPassGo (direction : TextDirection) (l : List Info) (i : Nat)
    (positions : List GlyphPosition) :
    (markPassGo direction i l positions).map advPair = positions.map advPair := by
  induction l generalizing i positions with
  | nil => rfl
  | cons hd tl ih =>
    unfold markPassGo
    rw [ih, advMap_markPassStep]

theorem length_markPassGo (direction : TextDirection) (l : List Info) (i : Nat)
    (positions : List GlyphPosition) :
    (markPassGo direction i l positions).length = positions.length := by
  have h := advMap_markPassGo direction l i positions
  have := congrArg List.length h
  simpa using this

/-- C3: on success, calculate_glyph_positions returns exactly one position per
input Info, index-aligned (the result is the positions vec allocated with the
input's length, mutated in place by the passes). -/
theorem calculate_length {env : FontEnv} {infos : List Info}
    {direction : TextDirection} {vertical : Bool} {ps : List GlyphPosition}
    (h : calculate_glyph_positions env infos direction vertical = .ok ps) :
    ps.length = infos.length := by
  unfold calculate_glyph_positions at h
  split at h
  · cases h
  · next st heq =>
    cases h
    have h1 := length_firstPass heq
    repeat' split
    all_goals simp [length_markPassGo, length_cursivePassGo, h1]

/-- C3 witness: the length invariant applied to the concrete cursive pair. -/
theorem calculate_length_witness :
    ([⟨0, 0, 0, 0, Option.none⟩, ⟨10, 0, 0, 50, Option.none⟩] :
        List GlyphPosition).length = infosCursivePair.length :=
  @calculate_length envTen infosCursivePair TextDirection.leftToRight false _ (by decide)

/-! ### First-pass success invariants -/

theorem firstPassStep_ok_inv {env : FontEnv} {vertical : Bool} {infos : List Info}
    {i : Nat} {info : Info} {st st' : Pass1State}
    (h : firstPassStep env vertical infos i info st = .ok st') :
    (∃ av, glyph_advance env info vertical = .ok av) ∧
      attachmentInRange infos.length info.attachment = true := by
  cases hadv : glyph_advance env info vertical with
  | error e => simp [firstPassStep, hadv] at h
  | ok av =>
    obtain ⟨ha, va⟩ := av
    refine ⟨⟨(ha, va), rfl⟩, ?_⟩
    cases hatt : info.attachment with
    | none => simp [attachmentInRange]
    | markAnchor b ba ma =>
      simp only [firstPassStep, hadv, hatt] at h
      cases hb : infos[b]? with
      | none => simp [hb] at h
      | some binfo =>
        simp [attachmentInRange, (List.getElem?_eq_some_iff.mp hb).1]
    | markOverprint b =>
      simp only [firstPassStep, hadv, hatt] at h
      cases hb : infos[b]? with
      | none => simp [hb] at h
      | some binfo =>
        simp [attachmentInRange, (List.getElem?_eq_some_iff.mp hb).1]
    | cursiveAnchor e r ea en =>
      simp only [firstPassStep, hadv, hatt] at h
      cases hb : infos[e]? with
      | none => simp [hb] at h
      | some einfo =>
        simp [attachmentInRange, (List.getElem?_eq_some_iff.mp hb).1]

theorem firstPassGo_ok_inv {env : FontEnv} {vertical : Bool} {infos : List Info}
    {l : List Info} {i : Nat} {st st' : Pass1State}
    (h : firstPassGo env vertical infos i l st = .ok st') :
    ∀ info ∈ l, (∃ av, glyph_advance env info vertical = .ok av) ∧
      attachmentInRange infos.length info.attachment = true := by
  induction l generalizing i st with
  | nil => intro info hm; cases hm
  | cons hd tl ih =>
    unfold firstPassGo at h
    split at h
    · next st1 heq =>
      intro info hm
      rcases List.mem_cons.mp hm with rfl | hm
      · exact firstPassStep_ok_inv heq
      · exact ih h info hm
    · cases h

theorem firstPassStep_marks_mono {env : FontEnv} {vertical : Bool} {infos : List Info}
    {i : Nat} {info : Info} {st st' : Pass1State}
    (h : firstPassStep env vertical infos i info st = .ok st')
    (hm : st.has_marks = true) : st'.has_marks = true := by
  unfold firstPassStep at h
  repeat' split at h
  all_goals cases h
  all_goals simp_all

theorem firstPassGo_marks_mono {env : FontEnv} {vertical : Bool} {infos : List Info}
    {l : List Info} {i : Nat} {st st' : Pass1State}
    (h : firstPassGo env vertical infos i l st = .ok st')
    (hm : st.has_marks = true) : st'.has_marks = true := by
  induction l generalizing i st with
  | nil => cases h; exact hm
  | cons hd tl ih =>
    unfold firstPassGo at h
    split at h
    · next st1 heq => exact ih h (firstPassStep_marks_mono heq hm)
    · cases h

theorem firstPassStep_marks_set {env : FontEnv} {vertical : Bool} {infos : List Info}
    {i : Nat} {info : Info} {st st' : Pass1State}
    (h : firstPassStep env vertical infos i info st = .ok st')
    (hm : isMarkAttachment info.attachment = true) : st'.has_marks = true := by
  unfold firstPassStep at h
  repeat' split at h
  all_goals cases h
  all_goals simp_all [isMarkAttachment]

theorem firstPassGo_marks_of_mem {env : FontEnv} {vertical : Bool} {infos : List Info}
    {l : List Info} {i : Nat} {st st' : Pass1State} {info0 : Info}
    (h : firstPassGo env vertical infos i l st = .ok st')
    (hmem : info0 ∈ l) (hm : isMarkAttachment info0.attachment = true) :
    st'.has_marks = true := by
  induction l generalizing i st with
  | nil => cases hmem
  | cons hd tl ih =>
    unfold firstPassGo at h
    split at h
    · next st1 heq =>
      rcases List.mem_cons.mp hmem with rfl | hmem
      · exact firstPassGo_marks_mono h (firstPassStep_marks_set heq hm)
      · exact ih h hmem
    · cases h

theorem firstPassStep_cursive_false {env : FontEnv} {vertical : Bool} {infos : List Info}
    {i : Nat} {info : Info} {st st' : Pass1State}
    (h : firstPassStep env vertical infos i info st = .ok st')
    (hnc : isCursiveAttachment info.attachment = false)
    (hc : st.has_cursive_connection = false) : st'.has_cursive_connection = false := by
  unfold firstPassStep at h
  repeat' split at h
  all_goals cases h
  all_goals simp_all [isCursiveAttachment]

theorem firstPassGo_cursive_false {env : FontEnv} {vertical : Bool} {infos : List Info}
    {l : List Info} {i : Nat} {st st' : Pass1State}
    (h : firstPassGo env vertical infos i l st = .ok st')
    (hnc : ∀ info ∈ l, isCursiveAttachment info.attachment = false)
    (hc : st.has_cursive_connection = false) : st'.has_cursive_connection = false := by
  induction l generalizing i st with
  | nil => cases h; exact hc
  | cons hd tl ih =>
    unfold firstPassGo at h
    split at h
    · next st1 heq =>
      exact ih h (fun info hm => hnc info (List.mem_cons_of_mem _ hm))
        (firstPassStep_cursive_false heq (hnc hd (List.mem_cons_self _ _)) hc)
    · cases h

/-! ### First-pass error dichotomy (for the BadIndex claim) -/

theorem firstPassStep_ok_or_bad {env : FontEnv} {vertical : Bool} {infos : List Info}
    {i : Nat} {info : Info} (st : Pass1State)
    (hadv : ∃ av, glyph_advance env info vertical = .ok av) (hi : i < 65536) :
    (∃ st', firstPassStep env vertical infos i info st = .ok st') ∨
      firstPassStep env vertical infos i info st = .error PosError.badIndex := by
  obtain ⟨⟨ha, va⟩, hadv⟩ := hadv
  cases hatt : info.attachment with
  | none =>
    cases hpl : info.placement with
    | none => exact Or.inl ⟨_, by simp only [firstPassStep, hadv, hatt, hpl]; rfl⟩
    | distance dx dy => exact Or.inl ⟨_, by simp only [firstPassStep, hadv, hatt, hpl]; rfl⟩
  | markAnchor b ba ma =>
    cases hb : infos[b]? with
    | none => exact Or.inr (by simp [firstPassStep, hadv, hatt, hb])
    | some binfo => exact Or.inl ⟨_, by simp only [firstPassStep, hadv, hatt, hb]; rfl⟩
  | markOverprint b =>
    cases hb : infos[b]? with
    | none => exact Or.inr (by simp [firstPassStep, hadv, hatt, hb])
    | some binfo => exact Or.inl ⟨_, by simp only [firstPassStep, hadv, hatt, hb]; rfl⟩
  | cursiveAnchor e r ea en =>
    cases hb : infos[e]? with
    | none => exact Or.inr (by simp [firstPassStep, hadv, hatt, hb])
    | some einfo =>
      exact Or.inl ⟨_, by simp only [firstPassStep, hadv, hatt, hb]; rw [if_pos hi]⟩

theorem firstPassGo_ok_or_bad {env : FontEnv} {vertical : Bool} {infos : List Info}
    (l : List Info) (i : Nat) (st : Pass1State)
    (hadv : ∀ info ∈ l, ∃ av, glyph_advance env info vertical = .ok av)
    (hb : i + l.length ≤ 65536) :
    (∃ st', firstPassGo env vertical infos i l st = .ok st') ∨
      firstPassGo env vertical infos i l st = .error PosError.badIndex := by
  induction l generalizing i st with
  | nil => exact Or.inl ⟨st, rfl⟩
  | cons hd tl ih =>
    rcases @firstPassStep_ok_or_bad env vertical infos i hd st
        (hadv hd (List.mem_cons_self _ _)) (by simp at hb; omega) with ⟨st1, h1⟩ | h1
    · have := ih (i + 1) st1 (fun info hm => hadv info (List.mem_cons_of_mem _ hm))
        (by simp at hb ⊢; omega)
      unfold firstPassGo
      rw [h1]
      exact this
    · unfold firstPassGo
      rw [h1]
      exact Or.inr rfl

/-- C6: an out-of-range base/exit attachment index prevents any positions
array from being produced; and when the font metrics are all available (and
the sequence fits u16 indices, so the only remaining failure is the bounds
check) the error produced is exactly BadIndex. -/
theorem bad_index_aborts {env : FontEnv} {infos : List Info}
    {direction : TextDirection} {vertical : Bool}
    (hbad : ∃ info ∈ infos, attachmentInRange infos.length info.attachment = false) :
    (∀ ps, calculate_glyph_positions env infos direction vertical ≠ .ok ps) ∧
      ((∀ info ∈ infos, ∃ av, glyph_advance env info vertical = .ok av) →
        infos.length ≤ 65536 →
        calculate_glyph_positions env infos direction vertical
          = .error PosError.badIndex) := by
  obtain ⟨info0, hmem, hfalse⟩ := hbad
  constructor
  · intro ps hok
    unfold calculate_glyph_positions at hok
    split at hok
    · cases hok
    · next st heq =>
      have := (firstPassGo_ok_inv heq info0 hmem).2
      rw [this] at hfalse
      cases hfalse
  · intro hadv hlen
    rcases @firstPassGo_ok_or_bad env vertical infos
        infos 0 ⟨List.replicate infos.length default, false, false⟩ hadv
        (by omega) with ⟨st, hok⟩ | hbadrun
    · exfalso
      have := (firstPassGo_ok_inv hok info0 hmem).2
      rw [this] at hfalse
      cases hfalse
    · unfold calculate_glyph_positions firstPass
      rw [hbadrun]

/-- C6 witness: a mark with base index 5 in a one-glyph run aborts with
BadIndex under a font with full metrics. -/
theorem bad_index_aborts_witness :
    (∀ ps, calculate_glyph_positions envTen infosBadIndex .leftToRight false ≠ .ok ps) ∧
      calculate_glyph_positions envTen infosBadIndex .leftToRight false
        = .error PosError.badIndex := by
  have h := @bad_index_aborts envTen infosBadIndex TextDirection.leftToRight false
    ⟨mkInfo 0 (Attachment.markAnchor 5 ⟨0, 0⟩ ⟨0, 0⟩) Placement.none, by decide, by decide⟩
  exact ⟨h.1, h.2 (fun info hm => ⟨(10, 0), by
    rcases List.mem_singleton.mp hm with rfl
    decide⟩) (by decide)⟩

/-! ### More list helpers -/

theorem mem_of_getElem?_aux {α : Type} {l : List α} {i : Nat} {a : α}
    (h : l[i]? = some a) : a ∈ l := by
  obtain ⟨hl, rfl⟩ := List.getElem?_eq_some_iff.mp h
  exact List.getElem_mem hl

theorem getD_replicate {α : Type} (n i : Nat) (d : α) :
    (List.replicate n d).getD i d = d := by
  induction n generalizing i with
  | zero => cases i <;> rfl
  | succ m ih =>
    cases i with
    | zero => rfl
    | succ k => simp only [List.replicate, List.getD_cons_succ]; exact ih k

theorem getD_take {α : Type} (l : List α) {i n : Nat} (d : α) (h : i < n) :
    (l.take n).getD i d = l.getD i d := by
  have h1 : (l.take n)[i]? = l[i]? := by rw [List.getElem?_take, if_pos h]
  simp [List.getD, h1]

theorem getD_eq_of_getElem? {α : Type} {l : List α} {i : Nat} {a : α} (d : α)
    (h : l[i]? = some a) : l.getD i d = a := by
  simp [List.getD, h]

theorem decomp_of_getElem? {α : Type} {l : List α} {i : Nat} {a : α}
    (h : l[i]? = some a) :
    l = l.take i ++ a :: l.drop (i + 1) ∧ (l.take i).length = i := by
  obtain ⟨hl, rfl⟩ := List.getElem?_eq_some_iff.mp h
  constructor
  · conv_lhs => rw [← List.take_append_drop i l]
    rw [List.drop_eq_getElem_cons hl]
  · simp [List.length_take]
    omega

/-! ### The mark pass touches only its own index -/

theorem markPassStep_getD_ne (direction : TextDirection) (i : Nat) (info : Info)
    (positions : List GlyphPosition) {j : Nat} (hne : i ≠ j) :
    (markPassStep direction i info positions).getD j default
      = positions.getD j default := by
  unfold markPassStep
  repeat' split
  all_goals first
  | rfl
  | exact getD_set_ne _ _ _ hne

theorem markPassStep_nonmark (direction : TextDirection) (i : Nat) (info : Info)
    (positions : List GlyphPosition)
    (h : isMarkAttachment info.attachment = false) :
    markPassStep direction i info positions = positions := by
  unfold markPassStep
  cases hatt : info.attachment
  all_goals simp_all [isMarkAttachment]

theorem markPassGo_getD_lt (direction : TextDirection) (l : List Info)
    (i : Nat) (positions : List GlyphPosition) {j : Nat} (h : j < i) :
    (markPassGo direction i l positions).getD j default
      = positions.getD j default := by
  induction l generalizing i positions with
  | nil => rfl
  | cons hd tl ih =>
    unfold markPassGo
    rw [ih (i + 1) (markPassStep direction i hd positions) (by omega)]
    exact markPassStep_getD_ne _ _ _ _ (by omega)

theorem markPassGo_getD_ge (direction : TextDirection) (l : List Info)
    (i : Nat) (positions : List GlyphPosition) {j : Nat} (h : i + l.length ≤ j) :
    (markPassGo direction i l positions).getD j default
      = positions.getD j default := by
  induction l generalizing i positions with
  | nil => rfl
  | cons hd tl ih =>
    unfold markPassGo
    rw [ih (i + 1) (markPassStep direction i hd positions) (by simp at h; omega)]
    exact markPassStep_getD_ne _ _ _ _ (by simp at h; omega)

theorem markPassGo_getD_of_nonmark (direction : TextDirection) (l : List Info)
    (i : Nat) (positions : List GlyphPosition) {j : Nat}
    (h : ∀ k info', l[k]? = some info' → i + k = j →
      isMarkAttachment info'.attachment = false) :
    (markPassGo direction i l positions).getD j default
      = positions.getD j default := by
  induction l generalizing i positions with
  | nil => rfl
  | cons hd tl ih =>
    unfold markPassGo
    rw [ih (i + 1) (markPassStep direction i hd positions)
      (fun k info' hk hik => h (k + 1) info' (by simpa using hk) (by omega))]
    by_cases hij : i = j
    · rw [markPassStep_nonmark _ _ _ _ (h 0 hd (by simp) hij)]
    · exact markPassStep_getD_ne _ _ _ _ hij

theorem markPassGo_append (direction : TextDirection) (l1 l2 : List Info)
    (i : Nat) (positions : List GlyphPosition) :
    markPassGo direction i (l1 ++ l2) positions
      = markPassGo direction (i + l1.length) l2 (markPassGo direction i l1 positions) := by
  induction l1 generalizing i positions with
  | nil => simp [markPassGo]
  | cons hd tl ih =>
    show markPassGo direction (i + 1) (tl ++ l2) (markPassStep direction i hd positions) = _
    rw [ih]
    have hc : i + 1 + tl.length = i + (hd :: tl).length := by
      simp only [List.length_cons]
      omega
    rw [hc]
    rfl

/-! ### Advance sums are invariant under the mark pass -/

theorem foldl_adv_congr (s1 : List GlyphPosition) :
    ∀ (s2 : List GlyphPosition), s1.map advPair = s2.map advPair →
    ∀ acc : Int × Int,
      s1.foldl (fun acc pos => (acc.1 + pos.hori_advance, acc.2 + pos.vert_advance)) acc
        = s2.foldl (fun acc pos => (acc.1 + pos.hori_advance, acc.2 + pos.vert_advance)) acc := by
  induction s1 with
  | nil =>
    intro s2 h acc
    have h2 : s2 = [] := List.map_eq_nil_iff.mp h.symm
    rw [h2]
  | cons hd tl ih =>
    intro s2 h acc
    cases s2 with
    | nil => cases h
    | cons hd2 tl2 =>
      simp only [List.map_cons, List.cons.injEq] at h
      obtain ⟨hhd, htl⟩ := h
      have h1 : hd.hori_advance = hd2.hori_advance := congrArg Prod.fst hhd
      have h2 : hd.vert_advance = hd2.vert_advance := congrArg Prod.snd hhd
      simp only [List.foldl_cons, h1, h2]
      exact ih tl2 htl _

theorem sum_advance_congr {l1 l2 : List GlyphPosition}
    (h : l1.map advPair = l2.map advPair) (a b : Nat) :
    sum_advance (rangeGet l1 a b) = sum_advance (rangeGet l2 a b) := by
  have hlen : l1.length = l2.length := by
    have := congrArg List.length h
    simpa using this
  unfold rangeGet
  rw [hlen]
  split
  · show sum_advance (some _) = sum_advance (some _)
    unfold sum_advance
    apply foldl_adv_congr
    rw [List.map_take, List.map_drop, h, ← List.map_drop, ← List.map_take]
  · rfl

/-! ### C5: missing metrics -/

/-- C5 counterexample: in vertical layout an upright glyph with no vertical
advance does NOT abort — glyph_advance falls back to ascender - descender
(= 1000 here) and calculate_glyph_positions succeeds, contradicting the
claim that a missing vertical advance is a MissingMetric-class failure. -/
theorem missing_vertical_metric_cex :
    envNoMetrics.vertical_advance 0 = Option.none ∧
    is_upright_glyph envNoMetrics infoUpright = true ∧
    calculate_glyph_positions envNoMetrics [infoUpright] .leftToRight true
      = .ok [⟨0, 1000, 0, 0, Option.none⟩] := by
  refine ⟨rfl, rfl, by decide⟩

/-- C5 (amended): a glyph whose advance is resolved horizontally (horizontal
layout, or a non-upright glyph in vertical layout) and has no horizontal
advance aborts the whole run with the missing-metric error; a missing
vertical advance for an upright glyph in vertical layout instead falls back
to ascender - descender and does not abort. -/
theorem missing_metric_aborts :
    (∀ (env : FontEnv) (infos : List Info) (direction : TextDirection)
        (vertical : Bool) (ps : List GlyphPosition) (info : Info),
      info ∈ infos →
      (vertical && is_upright_glyph env info) = false →
      env.horizontal_advance info.glyph_index = Option.none →
      calculate_glyph_positions env infos direction vertical ≠ .ok ps) ∧
    (∀ (env : FontEnv) (info : Info),
      is_upright_glyph env info = true →
      env.vertical_advance info.glyph_index = Option.none →
      glyph_advance env info true
        = .ok (0, env.ascender - env.descender + info.kerning)) := by
  constructor
  · intro env infos direction vertical ps info hmem hcond hnone hok
    have herr : glyph_advance env info vertical
        = .error (PosError.missingMetric info.glyph_index) := by
      simp [glyph_advance, hcond, hnone]
    unfold calculate_glyph_positions at hok
    split at hok
    · cases hok
    · next st heq =>
      obtain ⟨av, hadv⟩ := (firstPassGo_ok_inv heq info hmem).1
      rw [herr] at hadv
      cases hadv
  · intro env info hup hnone
    simp [glyph_advance, hup, hnone]

/-- C5 witness: a non-upright glyph with no horizontal advance in horizontal
layout aborts; an upright glyph with no vertical advance in vertical layout
yields the ascender-descender fallback. -/
theorem missing_metric_aborts_witness :
    calculate_glyph_positions envNoMetrics [mkInfo 0 Attachment.none Placement.none]
        .leftToRight false ≠ .ok [default] ∧
    glyph_advance envNoMetrics infoUpright true
      = .ok (0, envNoMetrics.ascender - envNoMetrics.descender + infoUpright.kerning) :=
  ⟨missing_metric_aborts.1 envNoMetrics [mkInfo 0 Attachment.none Placement.none]
      .leftToRight false [default] (mkInfo 0 Attachment.none Placement.none)
      (List.mem_singleton.mpr rfl) rfl rfl,
   missing_metric_aborts.2 envNoMetrics infoUpright rfl rfl⟩

/-! ### C1: cursive alignment of the two-glyph sequence -/

/-- C1 counterexample: with every horizontal advance 10, after the cursive
pass positions[0].y_offset is NOT its pre-cursive value plus 50 — it is the
second glyph (rtl_flag clear) that moves; positions[0].y_offset stays 0. -/
theorem cursive_cross_stream_cex :
    firstPass envTen false infosCursivePair
      = .ok ⟨[⟨10, 0, 0, 0, Option.none⟩, ⟨10, 0, 0, 0, Option.none⟩], false, true⟩ ∧
    calculate_glyph_positions envTen infosCursivePair .leftToRight false
      = .ok [⟨0, 0, 0, 0, Option.none⟩, ⟨10, 0, 0, 50, Option.none⟩] ∧
    ¬((([⟨0, 0, 0, 0, Option.none⟩, ⟨10, 0, 0, 50, Option.none⟩] :
          List GlyphPosition).getD 0 default).y_offset
        = (([⟨10, 0, 0, 0, Option.none⟩, ⟨10, 0, 0, 0, Option.none⟩] :
          List GlyphPosition).getD 0 default).y_offset + 50) := by
  refine ⟨by decide, by decide, by decide⟩

/-- C1 (amended): for the two-glyph sequence with glyph 0 carrying
CursiveAnchor(exit=1, rtl=false, exit=(100,50), entry=(0,0)) in LTR
horizontal layout, the cursive pass raises positions[1].y_offset (the second
glyph, because the RIGHT_TO_LEFT flag is clear) by exactly 50 over its
pre-cursive value, leaves positions[0].y_offset unchanged, and leaves
positions[1].hori_advance unchanged. -/
theorem cursive_cross_stream_amended (env : FontEnv) (a0 a1 : Int)
    (h0 : env.horizontal_advance 0 = some a0)
    (h1 : env.horizontal_advance 1 = some a1) :
    ∃ pre post,
      firstPass env false infosCursivePair = .ok pre ∧
      calculate_glyph_positions env infosCursivePair .leftToRight false = .ok post ∧
      (post.getD 1 default).y_offset = (pre.positions.getD 1 default).y_offset + 50 ∧
      (post.getD 0 default).y_offset = (pre.positions.getD 0 default).y_offset ∧
      (post.getD 1 default).hori_advance = (pre.positions.getD 1 default).hori_advance := by
  have hfp : firstPass env false infosCursivePair
      = .ok ⟨[⟨a0, 0, 0, 0, Option.none⟩, ⟨a1, 0, 0, 0, Option.none⟩], false, true⟩ := by
    simp [firstPass, firstPassGo, firstPassStep, glyph_advance, is_upright_glyph,
      infosCursivePair, mkInfo, h0, h1, List.replicate, default]
  have hcalc : calculate_glyph_positions env infosCursivePair .leftToRight false
      = .ok [⟨0, 0, 0, 0, Option.none⟩, ⟨a1, 0, 0, 50, Option.none⟩] := by
    unfold calculate_glyph_positions
    rw [hfp]
    simp [cursivePassGo, cursivePassStep, chainStep, infosCursivePair, mkInfo, default]
  exact ⟨_, _, hfp, hcalc, by simp [default], by simp [default], by simp [default]⟩

/-- C1 witness: the amended cursive alignment at the all-advances-10 font. -/
theorem cursive_cross_stream_amended_witness :
    ∃ pre post,
      firstPass envTen false infosCursivePair = .ok pre ∧
      calculate_glyph_positions envTen infosCursivePair .leftToRight false = .ok post ∧
      (post.getD 1 default).y_offset = (pre.positions.getD 1 default).y_offset + 50 ∧
      (post.getD 0 default).y_offset = (pre.positions.getD 0 default).y_offset ∧
      (post.getD 1 default).hori_advance = (pre.positions.getD 1 default).hori_advance :=
  cursive_cross_stream_amended envTen 10 10 rfl rfl

/-! ### C4: mark-overprint copies its base's offset -/

/-- The mark pass decomposed at index i: prefix, then the step for i, then
the suffix at counters above i. -/
theorem markPassGo_decomp {infos : List Info} {i : Nat} {info : Info}
    (direction : TextDirection) (q : List GlyphPosition)
    (hi : infos[i]? = some info) :
    markPassGo direction 0 infos q
      = markPassGo direction (i + 1) (infos.drop (i + 1))
          (markPassStep direction i info (markPassGo direction 0 (infos.take i) q)) := by
  obtain ⟨hdec, hlen_take⟩ := decomp_of_getElem? hi
  conv_lhs => rw [hdec]
  rw [markPassGo_append, hlen_take, Nat.zero_add]
  rfl

/-- C4 (amended): a MarkOverprint glyph's final offset is an exact copy of
positions[base]'s final offset whenever the base's own mark-pass step does
not run after the copy — that is, when base < i, or when the base is not
itself a mark glyph. (The counterexample shows the copy reads the mid-pass
value when the base is a later-processed mark.) -/
theorem mark_overprint_copies {env : FontEnv} {infos : List Info}
    {direction : TextDirection} {vertical : Bool} {ps : List GlyphPosition}
    {i base_index : Nat} {info : Info}
    (hok : calculate_glyph_positions env infos direction vertical = .ok ps)
    (hi : infos[i]? = some info)
    (hatt : info.attachment = Attachment.markOverprint base_index)
    (hbase : base_index < i ∨
      isMarkAttachment ((infos.getD base_index default).attachment) = false) :
    (ps.getD i default).x_offset = (ps.getD base_index default).x_offset ∧
    (ps.getD i default).y_offset = (ps.getD base_index default).y_offset := by
  unfold calculate_glyph_positions at hok
  split at hok
  · cases hok
  · next st heq =>
    unfold firstPass at heq
    have hps := (Except.ok.inj hok).symm
    have hm : st.has_marks = true :=
      firstPassGo_marks_of_mem heq (mem_of_getElem?_aux hi)
        (by rw [hatt]; rfl)
    rw [hm] at hps
    simp only [if_true] at hps
    set q := if st.has_cursive_connection = true then
        cursivePassGo direction infos.length 0 infos st.positions
      else st.positions with hqdef
    have hq : ps = markPassGo direction 0 infos q := hps
    have hlq : q.length = infos.length := by
      rw [hqdef]
      split
      · rw [length_cursivePassGo]
        simpa using length_firstPassGo heq
      · simpa using length_firstPassGo heq
    have hiLen : i < infos.length := (List.getElem?_eq_some_iff.mp hi).1
    obtain ⟨hdec, hlen_take⟩ := decomp_of_getElem? hi
    set P := markPassGo direction 0 (infos.take i) q with hP
    have hPlen : P.length = infos.length := by
      rw [hP, length_markPassGo]
      exact hlq
    have hsplit := markPassGo_decomp direction q hi
    have h1 : ps.getD i default = (markPassStep direction i info P).getD i default := by
      rw [hq, hsplit]
      exact markPassGo_getD_lt _ _ _ _ (by omega)
    have h2 : (markPassStep direction i info P).getD i default
        = { P.getD i default with
            x_offset := (P.getD base_index default).x_offset,
            y_offset := (P.getD base_index default).y_offset } := by
      simp only [markPassStep, hatt]
      exact getD_set_eq _ _ _ _ (by rw [hPlen]; exact hiLen)
    have h3 : P.getD base_index default = ps.getD base_index default := by
      rcases hbase with hlt | hnm
      · rw [hq, hsplit]
        rw [markPassGo_getD_lt direction (infos.drop (i + 1)) (i + 1)
            (markPassStep direction i info (markPassGo direction 0 (infos.take i) q))
            (show base_index < i + 1 by omega)]
        rw [markPassStep_getD_ne direction i info
            (markPassGo direction 0 (infos.take i) q) (show i ≠ base_index by omega)]
      · have hful : (markPassGo direction 0 infos q).getD base_index default
            = q.getD base_index default := by
          apply markPassGo_getD_of_nonmark
          intro k info' hk h0k
          have hkb : k = base_index := by omega
          rw [hkb] at hk
          rw [getD_eq_of_getElem? default hk] at hnm
          exact hnm
        have hpre : P.getD base_index default = q.getD base_index default := by
          rw [hP]
          apply markPassGo_getD_of_nonmark
          intro k info' hk h0k
          have hkb : k = base_index := by omega
          rw [hkb] at hk
          by_cases hbi : base_index < i
          · have ht : (infos.take i)[base_index]? = infos[base_index]? := by
              rw [List.getElem?_take, if_pos hbi]
            rw [ht] at hk
            rw [getD_eq_of_getElem? default hk] at hnm
            exact hnm
          · have ht : (infos.take i)[base_index]? = Option.none :=
              List.getElem?_eq_none (by rw [hlen_take]; omega)
            rw [ht] at hk
            cases hk
        rw [hpre, hq, ← hful]
    constructor
    · rw [h1, h2]
      simpa using congrArg GlyphPosition.x_offset h3
    · rw [h1, h2]
      simpa using congrArg GlyphPosition.y_offset h3

/-- C4 counterexample: when the overprint's base is itself a mark processed
later (base > i), the copy happens mid-pass: glyph 0 (MarkOverprint(1)) ends
at offset (5,5) while its base glyph 1 ends at (10,10). -/
theorem mark_overprint_copies_cex :
    calculate_glyph_positions envTen infosOverprintSwap .leftToRight false
      = .ok [⟨0, 0, 5, 5, Option.none⟩, ⟨10, 0, 10, 10, Option.none⟩] ∧
    ¬((([⟨0, 0, 5, 5, Option.none⟩, ⟨10, 0, 10, 10, Option.none⟩] :
          List GlyphPosition).getD 0 default).x_offset
        = (([⟨0, 0, 5, 5, Option.none⟩, ⟨10, 0, 10, 10, Option.none⟩] :
          List GlyphPosition).getD 1 default).x_offset) := by
  refine ⟨by decide, by decide⟩

/-- C4 witness: an overprint mark after its base copies the base's final
offset. -/
theorem mark_overprint_copies_witness :
    (([⟨10, 0, 0, 0, Option.none⟩, ⟨0, 0, 0, 0, Option.none⟩] :
        List GlyphPosition).getD 1 default).x_offset
      = (([⟨10, 0, 0, 0, Option.none⟩, ⟨0, 0, 0, 0, Option.none⟩] :
        List GlyphPosition).getD 0 default).x_offset ∧
    (([⟨10, 0, 0, 0, Option.none⟩, ⟨0, 0, 0, 0, Option.none⟩] :
        List GlyphPosition).getD 1 default).y_offset
      = (([⟨10, 0, 0, 0, Option.none⟩, ⟨0, 0, 0, 0, Option.none⟩] :
        List GlyphPosition).getD 0 default).y_offset :=
  @mark_overprint_copies envTen infosOverprintSimple TextDirection.leftToRight false
    [⟨10, 0, 0, 0, Option.none⟩, ⟨0, 0, 0, 0, Option.none⟩] 1 0
    (mkInfo 1 (Attachment.markOverprint 0) Placement.none)
    (by decide) (by decide) (by decide) (Or.inl (by decide))

/-! ### Advance preservation through the passes (claim C10 groundwork) -/

theorem set_of_length_le {α : Type} (l : List α) {i : Nat} (a : α)
    (h : l.length ≤ i) : l.set i a = l := by
  induction l generalizing i with
  | nil => rfl
  | cons hd tl ih =>
    cases i with
    | zero => simp at h
    | succ n => simpa using ih (by simpa using h)

theorem proj_map_set {β : Type} (f : GlyphPosition → β) (l : List GlyphPosition)
    (i : Nat) (v : GlyphPosition) (h : f v = f (l.getD i default)) :
    (l.set i v).map f = l.map f := by
  rw [map_set, h, ← getD_map f l i default, set_getD]

theorem getD_set_proj {β : Type} (f : GlyphPosition → β) (l : List GlyphPosition)
    (t : Nat) (v : GlyphPosition) (j : Nat) (h : f v = f (l.getD t default)) :
    f ((l.set t v).getD j default) = f (l.getD j default) := by
  by_cases htj : t = j
  · subst htj
    by_cases hlt : t < l.length
    · rw [getD_set_eq _ _ _ _ hlt, h]
    · rw [set_of_length_le _ _ (by omega)]
  · rw [getD_set_ne _ _ _ htj]

theorem proj_getD_of_map {β : Type} {f : GlyphPosition → β}
    {l1 l2 : List GlyphPosition} (h : l1.map f = l2.map f) (j : Nat) :
    f (l1.getD j default) = f (l2.getD j default) := by
  have := congrArg (fun m => m.getD j (f default)) h
  simpa [getD_map] using this

theorem vertMap_of_advMap {l1 l2 : List GlyphPosition}
    (h : l1.map advPair = l2.map advPair) : l1.map vertAdv = l2.map vertAdv := by
  have hv : vertAdv = Prod.snd ∘ advPair := rfl
  rw [hv, ← List.map_map, ← List.map_map, h]

theorem firstPassStep_advPair_ne {env : FontEnv} {vertical : Bool}
    {infos : List Info} {i : Nat} {info : Info} {st st' : Pass1State}
    (h : firstPassStep env vertical infos i info st = .ok st') {j : Nat}
    (hne : i ≠ j) :
    advPair (st'.positions.getD j default) = advPair (st.positions.getD j default) := by
  unfold firstPassStep at h
  repeat' split at h
  all_goals cases h
  all_goals first
  | rfl
  | (rw [getD_set_ne _ _ _ hne]
     exact getD_set_proj advPair _ _ _ _ (by simp [advPair]))
  | rw [getD_set_ne _ _ _ hne]

theorem firstPassStep_overprint_positions {env : FontEnv} {vertical : Bool}
    {infos : List Info} {i : Nat} {info : Info} {st st' : Pass1State}
    {b : Nat} (h : firstPassStep env vertical infos i info st = .ok st')
    (hatt : info.attachment = Attachment.markOverprint b) :
    st'.positions = st.positions := by
  unfold firstPassStep at h
  rw [hatt] at h
  repeat' split at h
  all_goals cases h
  all_goals first | rfl | simp_all

theorem firstPassGo_advPair {env : FontEnv} {vertical : Bool} {infos : List Info}
    {b : Nat} (l : List Info) (i0 : Nat) (st st' : Pass1State)
    (h : firstPassGo env vertical infos i0 l st = .ok st') {j : Nat}
    (hj : ∀ k info', l[k]? = some info' → i0 + k = j →
      info'.attachment = Attachment.markOverprint b) :
    advPair (st'.positions.getD j default) = advPair (st.positions.getD j default) := by
  induction l generalizing i0 st with
  | nil => cases h; rfl
  | cons hd tl ih =>
    unfold firstPassGo at h
    split at h
    · next st1 heq =>
      have hrest := ih (i0 + 1) st1 h
        (fun k info' hk hik => hj (k + 1) info' (by simpa using hk) (by omega))
      rw [hrest]
      by_cases hij : i0 = j
      · rw [firstPassStep_overprint_positions heq (hj 0 hd (by simp) hij)]
      · exact firstPassStep_advPair_ne heq hij
    · cases h

theorem adjust_chain_advMap (fuel : Nat) (delta : Int) (index : Nat)
    (positions : List GlyphPosition) :
    (adjust_cursive_chain fuel delta index positions).map advPair
      = positions.map advPair := by
  induction fuel generalizing index positions with
  | zero => rfl
  | succ n ih =>
    simp only [adjust_cursive_chain]
    split
    · rw [ih, proj_map_set advPair _ _ _ (by simp [advPair])]
    · rw [proj_map_set advPair _ _ _ (by simp [advPair])]

theorem chainStep_advMap (fuel : Nat) (dy : Int) (target : Nat)
    (positions : List GlyphPosition) :
    (chainStep fuel dy target positions).map advPair = positions.map advPair := by
  unfold chainStep
  split
  · exact adjust_chain_advMap _ _ _ _
  · rfl

theorem cursivePassStep_vertMap (direction : TextDirection) (fuel : Nat) (i : Nat)
    (info : Info) (positions : List GlyphPosition) :
    (cursivePassStep direction fuel i info positions).map vertAdv
      = positions.map vertAdv := by
  unfold cursivePassStep
  repeat' split
  all_goals first
  | rfl
  | rw [vertMap_of_advMap (chainStep_advMap _ _ _ _),
      proj_map_set vertAdv _ _ _ (by simp [vertAdv]),
      proj_map_set vertAdv _ _ _ (by simp [vertAdv])]

theorem cursivePassGo_vertMap (direction : TextDirection) (fuel : Nat)
    (l : List Info) (i : Nat) (positions : List GlyphPosition) :
    (cursivePassGo direction fuel i l positions).map vertAdv
      = positions.map vertAdv := by
  induction l generalizing i positions with
  | nil => rfl
  | cons hd tl ih =>
    unfold cursivePassGo
    rw [ih, cursivePassStep_vertMap]

theorem cursivePassStep_hori_getD (direction : TextDirection) (fuel : Nat)
    (i : Nat) (info : Info) (positions : List GlyphPosition) {j : Nat}
    (hj : ∀ e r ea en, info.attachment = Attachment.cursiveAnchor e r ea en →
      (if i < e then i else e) ≠ j) :
    ((cursivePassStep direction fuel i info positions).getD j default).hori_advance
      = ((positions.getD j default)).hori_advance := by
  have hhori : ∀ l1 l2 : List GlyphPosition, l1.map advPair = l2.map advPair →
      (l1.getD j default).hori_advance = (l2.getD j default).hori_advance := by
    intro l1 l2 hm
    have h1 := congrArg Prod.fst (proj_getD_of_map hm j)
    simpa [advPair] using h1
  have key : ∀ (dy : Int) (tgt : Nat) (ps1 : List GlyphPosition) (vy : GlyphPosition),
      vy.hori_advance = (ps1.getD tgt default).hori_advance →
      ((chainStep fuel dy tgt (ps1.set tgt vy)).getD j default).hori_advance
        = (ps1.getD j default).hori_advance := by
    intro dy tgt ps1 vy hv
    rw [hhori _ _ (chainStep_advMap _ _ _ _)]
    exact getD_set_proj GlyphPosition.hori_advance _ _ _ _ hv
  unfold cursivePassStep
  split
  · next e r ea en hatt =>
    have hne : (if i < e then i else e) ≠ j := hj e r ea en hatt
    by_cases hlt : i < e
    · rw [if_pos hlt] at hne
      simp only [hlt, if_true, ite_true]
      cases direction <;> split <;>
        (rw [key _ _ _ _ (by simp)]; rw [getD_set_ne _ _ _ hne])
    · rw [if_neg hlt] at hne
      simp only [hlt, if_false, ite_false]
      cases direction <;> split <;>
        (rw [key _ _ _ _ (by simp)]; rw [getD_set_ne _ _ _ hne])
  · rfl

/-- C10 (amended): a MarkOverprint glyph's returned position always has
vert_advance = 0, and hori_advance = 0 provided the glyph is not the
lower-index member of any cursive-attachment pair (whose line-direction
adjustment overwrites that member's hori_advance in the cursive pass). -/
theorem mark_overprint_zero_advance {env : FontEnv} {infos : List Info}
    {direction : TextDirection} {vertical : Bool} {ps : List GlyphPosition}
    {i base_index : Nat} {info : Info}
    (hok : calculate_glyph_positions env infos direction vertical = .ok ps)
    (hi : infos[i]? = some info)
    (hatt : info.attachment = Attachment.markOverprint base_index) :
    (ps.getD i default).vert_advance = 0 ∧
    ((∀ j info', infos[j]? = some info' →
        ∀ e r ea en, info'.attachment = Attachment.cursiveAnchor e r ea en →
        (if j < e then j else e) ≠ i) →
      (ps.getD i default).hori_advance = 0) := by
  unfold calculate_glyph_positions at hok
  split at hok
  · cases hok
  · next st heq =>
    unfold firstPass at heq
    have hps := (Except.ok.inj hok).symm
    set q : List GlyphPosition := if st.has_cursive_connection = true then
        cursivePassGo direction infos.length 0 infos st.positions
      else st.positions with hqdef
    have hpass1 : advPair (st.positions.getD i default)
        = advPair ((List.replicate infos.length
            (default : GlyphPosition)).getD i default) := by
      apply firstPassGo_advPair infos 0 _ _ heq
      intro k info' hk h0k
      have hkb : k = i := by omega
      rw [hkb] at hk
      rw [hi] at hk
      cases hk
      exact hatt
    have hinit : advPair ((List.replicate infos.length
        (default : GlyphPosition)).getD i default) = (0, 0) := by
      rw [getD_replicate]
      rfl
    have hmark : ps.map advPair = q.map advPair := by
      rw [hps]
      split
      · exact advMap_markPassGo _ _ _ _
      · rfl
    have hvq : q.map vertAdv = st.positions.map vertAdv := by
      rw [hqdef]
      split
      · exact cursivePassGo_vertMap _ _ _ _ _
      · rfl
    constructor
    · have h1 : vertAdv (ps.getD i default) = vertAdv (q.getD i default) :=
        proj_getD_of_map (vertMap_of_advMap hmark) i
      have h2 : vertAdv (q.getD i default) = vertAdv (st.positions.getD i default) :=
        proj_getD_of_map hvq i
      have h3 : vertAdv (st.positions.getD i default) = 0 := by
        have := congrArg Prod.snd (hpass1.trans hinit)
        simpa [advPair, vertAdv] using this
      exact (h1.trans h2).trans h3
    · intro hpair
      have h1 : (ps.getD i default).hori_advance = (q.getD i default).hori_advance := by
        have hp := congrArg Prod.fst (proj_getD_of_map hmark i)
        simpa [advPair] using hp
      have hcgo : ∀ (l : List Info) (i0 : Nat) (posns : List GlyphPosition),
          (∀ k info', l[k]? = some info' →
            ∀ e r ea en, info'.attachment = Attachment.cursiveAnchor e r ea en →
            (if (i0 + k) < e then (i0 + k) else e) ≠ i) →
          ((cursivePassGo direction infos.length i0 l posns).getD i default).hori_advance
            = (posns.getD i default).hori_advance := by
        intro l
        induction l with
        | nil => intro i0 posns _; rfl
        | cons hd tl ih =>
          intro i0 posns hcond
          unfold cursivePassGo
          rw [ih (i0 + 1) _
            (fun k info' hk => by
              have harith : i0 + 1 + k = i0 + (k + 1) := by omega
              rw [harith]
              exact hcond (k + 1) info' (by simpa using hk))]
          exact cursivePassStep_hori_getD _ _ _ _ _
            (fun e r ea en ha => by
              have := hcond 0 hd (by simp) e r ea en ha
              simpa using this)
      have h2 : (q.getD i default).hori_advance
          = (st.positions.getD i default).hori_advance := by
        rw [hqdef]
        split
        · exact hcgo infos 0 st.positions
            (fun k info' hk => by simpa using hpair k info' hk)
        · rfl
      have h3 : (st.positions.getD i default).hori_advance = 0 := by
        have := congrArg Prod.fst (hpass1.trans hinit)
        simpa [advPair] using this
      rw [h1, h2, h3]

/-- C10 counterexample: an overprint glyph that is the lower-index member of
a cursive pair gets its hori_advance overwritten to the entry anchor's x (7),
so its returned hori_advance is not 0. -/
theorem mark_overprint_zero_advance_cex :
    calculate_glyph_positions envTen infosOverprintCursive .leftToRight false
      = .ok [⟨7, 0, 0, 0, some 1⟩, ⟨10, 0, 0, 0, Option.none⟩] ∧
    ¬((([⟨7, 0, 0, 0, some 1⟩, ⟨10, 0, 0, 0, Option.none⟩] :
          List GlyphPosition).getD 0 default).hori_advance = 0) := by
  refine ⟨by decide, by decide⟩

/-- C10 witness: in a cursive-free run the overprint mark's advances are 0. -/
theorem mark_overprint_zero_advance_witness :
    (([⟨10, 0, 0, 0, Option.none⟩, ⟨0, 0, 0, 0, Option.none⟩] :
        List GlyphPosition).getD 1 default).vert_advance = 0 ∧
    (([⟨10, 0, 0, 0, Option.none⟩, ⟨0, 0, 0, 0, Option.none⟩] :
        List GlyphPosition).getD 1 default).hori_advance = 0 := by
  have h := @mark_overprint_zero_advance envTen infosOverprintSimple
    TextDirection.leftToRight false
    [⟨10, 0, 0, 0, Option.none⟩, ⟨0, 0, 0, 0, Option.none⟩] 1 0
    (mkInfo 1 (Attachment.markOverprint 0) Placement.none)
    (by decide) (by decide) (by decide)
  refine ⟨h.1, h.2 ?_⟩
  intro j info' hj e r ea en hatt'
  exfalso
  have hmem : info' ∈ infosOverprintSimple := mem_of_getElem?_aux hj
  have hnc : ∀ x ∈ infosOverprintSimple, isCursiveAttachment x.attachment = false := by
    decide
  have := hnc info' hmem
  rw [hatt'] at this
  cases this

/-! ### First-pass decomposition (claim C2 groundwork) -/

theorem firstPassGo_append {env : FontEnv} {vertical : Bool} {infos : List Info}
    (l1 l2 : List Info) (i : Nat) (st : Pass1State) :
    firstPassGo env vertical infos i (l1 ++ l2) st
      = match firstPassGo env vertical infos i l1 st with
        | .ok st1 => firstPassGo env vertical infos (i + l1.length) l2 st1
        | .error e => .error e := by
  induction l1 generalizing i st with
  | nil => simp [firstPassGo]
  | cons hd tl ih =>
    show (match firstPassStep env vertical infos i hd st with
          | .ok st1 => firstPassGo env vertical infos (i + 1) (tl ++ l2) st1
          | .error e => .error e) = _
    cases hstep : firstPassStep env vertical infos i hd st with
    | error e => simp [firstPassGo, hstep]
    | ok st1 =>
      simp only [firstPassGo, hstep]
      rw [ih]
      have hc : i + 1 + tl.length = i + (hd :: tl).length := by
        simp only [List.length_cons]
        omega
      rw [hc]

theorem firstPassStep_getD_ne_noncursive {env : FontEnv} {vertical : Bool}
    {infos : List Info} {i : Nat} {info : Info} {st st' : Pass1State}
    (h : firstPassStep env vertical infos i info st = .ok st')
    (hnc : isCursiveAttachment info.attachment = false) {j : Nat} (hne : i ≠ j) :
    st'.positions.getD j default = st.positions.getD j default := by
  unfold firstPassStep at h
  repeat' split at h
  all_goals cases h
  all_goals first
  | rfl
  | exact getD_set_ne _ _ _ hne
  | simp_all [isCursiveAttachment]

theorem firstPassGo_getD_lt_noncursive {env : FontEnv} {vertical : Bool}
    {infos : List Info} (l : List Info) (i0 : Nat) (st st' : Pass1State)
    (h : firstPassGo env vertical infos i0 l st = .ok st')
    (hnc : ∀ info' ∈ l, isCursiveAttachment info'.attachment = false)
    {j : Nat} (hj : j < i0) :
    st'.positions.getD j default = st.positions.getD j default := by
  induction l generalizing i0 st with
  | nil => cases h; rfl
  | cons hd tl ih =>
    unfold firstPassGo at h
    split at h
    · next st1 heq =>
      rw [ih (i0 + 1) st1 h (fun x hm => hnc x (List.mem_cons_of_mem _ hm)) (by omega)]
      exact firstPassStep_getD_ne_noncursive heq (hnc hd (List.mem_cons_self _ _)) (by omega)
    · cases h

/-! ### C2: mark-anchor offset resolution -/

/-- C2 (amended): in a successfully resolved cursive-free sequence, a
MarkAnchor(base, base_anchor, mark_anchor) glyph i whose base's offset is
settled before the copy (base < i, or base not itself a mark) ends at the
base's final offset plus the anchor difference plus the base's own Placement
distance, adjusted by subtracting (LTR) the advance sum over the half-open
range [base, i) — which includes the base and excludes the mark — or adding
(RTL) the sum over [i, base) — which includes the mark and excludes the base;
and sum_advance yields (0,0) on an empty or invalid range. -/
theorem mark_anchor_offsets {env : FontEnv} {infos : List Info}
    {direction : TextDirection} {vertical : Bool} {ps : List GlyphPosition}
    {i base_index : Nat} {base_anchor mark_anchor : AnchorPoint} {info : Info}
    (hok : calculate_glyph_positions env infos direction vertical = .ok ps)
    (hi : infos[i]? = some info)
    (hatt : info.attachment = Attachment.markAnchor base_index base_anchor mark_anchor)
    (hnc : ∀ info' ∈ infos, isCursiveAttachment info'.attachment = false)
    (hbase : base_index < i ∨
      isMarkAttachment ((infos.getD base_index default).attachment) = false) :
    ((ps.getD i default).x_offset
        = (ps.getD base_index default).x_offset
          + (base_anchor.x - mark_anchor.x)
          + (placementDistance (infos.getD base_index default).placement).1
          + (match direction with
             | .leftToRight => -(sum_advance (rangeGet ps base_index i)).1
             | .rightToLeft => (sum_advance (rangeGet ps i base_index)).1) ∧
     (ps.getD i default).y_offset
        = (ps.getD base_index default).y_offset
          + (base_anchor.y - mark_anchor.y)
          + (placementDistance (infos.getD base_index default).placement).2
          + (match direction with
             | .leftToRight => -(sum_advance (rangeGet ps base_index i)).2
             | .rightToLeft => (sum_advance (rangeGet ps i base_index)).2)) ∧
    (∀ (qs : List GlyphPosition) (a b : Nat), b ≤ a ∨ qs.length < b →
      sum_advance (rangeGet qs a b) = (0, 0)) := by
  have hhelper : ∀ (qs : List GlyphPosition) (a b : Nat), b ≤ a ∨ qs.length < b →
      sum_advance (rangeGet qs a b) = (0, 0) := by
    intro qs a b hab
    unfold rangeGet
    split
    · next hcond =>
      have hz : b - a = 0 := by omega
      simp [hz, sum_advance]
    · rfl
  refine ⟨?_, hhelper⟩
  unfold calculate_glyph_positions at hok
  split at hok
  · cases hok
  · next st heq =>
    unfold firstPass at heq
    have hps := (Except.ok.inj hok).symm
    have hm : st.has_marks = true :=
      firstPassGo_marks_of_mem heq (mem_of_getElem?_aux hi) (by rw [hatt]; rfl)
    have hc : st.has_cursive_connection = false :=
      firstPassGo_cursive_false heq hnc rfl
    rw [hm, hc] at hps
    simp only [if_true, Bool.false_eq_true, if_false] at hps
    -- ps is the mark pass applied directly to the first-pass positions
    have hq : ps = markPassGo direction 0 infos st.positions := hps
    have hlen1 : st.positions.length = infos.length := by
      simpa using length_firstPassGo heq
    have hiLen : i < infos.length := (List.getElem?_eq_some_iff.mp hi).1
    -- first-pass value at the mark's own index
    obtain ⟨hdec, hlen_take⟩ := decomp_of_getElem? hi
    have hbLen : base_index < infos.length := by
      have := (firstPassGo_ok_inv heq info (mem_of_getElem?_aux hi)).2
      rw [hatt] at this
      simpa [attachmentInRange] using this
    have hbelem : infos[base_index]? = some (infos.getD base_index default) := by
      have := List.getElem?_eq_getElem hbLen
      rw [this]
      rw [getD_eq_of_getElem? default this]
    obtain ⟨⟨ha, va⟩, hadv⟩ := (firstPassGo_ok_inv heq info (mem_of_getElem?_aux hi)).1
    have hp1 : st.positions.getD i default
        = ⟨ha, va, base_anchor.x - mark_anchor.x
            + (placementDistance (infos.getD base_index default).placement).1,
           base_anchor.y - mark_anchor.y
            + (placementDistance (infos.getD base_index default).placement).2,
           Option.none⟩ := by
      -- decompose the first pass at index i
      rw [hdec] at heq
      rw [firstPassGo_append] at heq
      split at heq
      · next stA heqA =>
        rw [hlen_take, Nat.zero_add] at heq
        unfold firstPassGo at heq
        split at heq
        · next stB heqB =>
          -- suffix does not touch index i
          have hsuf : st.positions.getD i default = stB.positions.getD i default := by
            apply firstPassGo_getD_lt_noncursive _ _ _ _ heq
            · intro x hmx
              apply hnc
              rw [hdec]
              exact List.mem_append_right _ (List.mem_cons_of_mem _ hmx)
            · omega
          -- the step writes the mark-anchor record
          have hstA : stA.positions.length = infos.length := by
            have h1 := length_firstPassGo heqA
            rw [← hdec] at h1
            simpa using h1
          have hbelem2 : (List.take i infos ++ info :: List.drop (i + 1) infos)[base_index]?
              = some (infos.getD base_index default) := by
            rw [← hdec]
            exact hbelem
          simp only [firstPassStep, hadv, hatt, hbelem2] at heqB
          have hB := (Except.ok.inj heqB)
          rw [hsuf, ← hB]
          simp only []
          rw [getD_set_eq _ _ _ _ (by rw [hstA]; exact hiLen)]
          cases hpl : (infos.getD base_index default).placement <;>
            simp [placementDistance, hpl]
        · cases heq
      · cases heq
    -- mark-pass decomposition at index i
    set P := markPassGo direction 0 (infos.take i) st.positions with hP
    have hPadv : P.map advPair = st.positions.map advPair := advMap_markPassGo _ _ _ _
    have hpsadv : ps.map advPair = st.positions.map advPair := by
      rw [hq]
      exact advMap_markPassGo _ _ _ _
    have hPlen : P.length = infos.length := by
      rw [hP, length_markPassGo]
      exact hlen1
    have hsplit := markPassGo_decomp direction st.positions hi
    have h1 : ps.getD i default = (markPassStep direction i info P).getD i default := by
      rw [hq, hsplit]
      exact markPassGo_getD_lt _ _ _ _ (by omega)
    have hPi : P.getD i default = st.positions.getD i default := by
      rw [hP]
      exact markPassGo_getD_ge _ _ _ _ (by rw [hlen_take]; omega)
    -- the base's offset is already final when the step reads it
    have h3 : P.getD base_index default = ps.getD base_index default := by
      rcases hbase with hlt | hnm
      · rw [hq, hsplit]
        rw [markPassGo_getD_lt direction (infos.drop (i + 1)) (i + 1)
            (markPassStep direction i info (markPassGo direction 0 (infos.take i) st.positions))
            (show base_index < i + 1 by omega)]
        rw [markPassStep_getD_ne direction i info
            (markPassGo direction 0 (infos.take i) st.positions) (show i ≠ base_index by omega)]
      · have hful : (markPassGo direction 0 infos st.positions).getD base_index default
            = st.positions.getD base_index default := by
          apply markPassGo_getD_of_nonmark
          intro k info' hk h0k
          have hkb : k = base_index := by omega
          rw [hkb] at hk
          rw [getD_eq_of_getElem? default hk] at hnm
          exact hnm
        have hpre : P.getD base_index default = st.positions.getD base_index default := by
          rw [hP]
          apply markPassGo_getD_of_nonmark
          intro k info' hk h0k
          have hkb : k = base_index := by omega
          rw [hkb] at hk
          by_cases hbi : base_index < i
          · have ht : (infos.take i)[base_index]? = infos[base_index]? := by
              rw [List.getElem?_take, if_pos hbi]
            rw [ht] at hk
            rw [getD_eq_of_getElem? default hk] at hnm
            exact hnm
          · have ht : (infos.take i)[base_index]? = Option.none :=
              List.getElem?_eq_none (by rw [hlen_take]; omega)
            rw [ht] at hk
            cases hk
        rw [hpre, hq, ← hful]
    -- the sums over P equal the sums over the final array
    have hsum1 : sum_advance (rangeGet P base_index i)
        = sum_advance (rangeGet ps base_index i) :=
      sum_advance_congr (hPadv.trans hpsadv.symm) _ _
    have hsum2 : sum_advance (rangeGet P i base_index)
        = sum_advance (rangeGet ps i base_index) :=
      sum_advance_congr (hPadv.trans hpsadv.symm) _ _
    -- evaluate the mark step
    rw [h1]
    simp only [markPassStep, hatt]
    rw [getD_set_eq _ _ _ _ (by rw [hPlen]; exact hiLen)]
    cases direction
    · constructor
      · simp only []
        rw [hsum1.symm, ← h3, hPi, hp1]
        simp only []
        ring
      · simp only []
        rw [hsum1.symm, ← h3, hPi, hp1]
        simp only []
        ring
    · constructor
      · simp only []
        rw [hsum2.symm, ← h3, hPi, hp1]
        simp only []
        ring
      · simp only []
        rw [hsum2.symm, ← h3, hPi, hp1]
        simp only []
        ring

/-- C2 counterexample: adjacent base (advance 100) and mark with equal
anchors, LTR. The glyphs strictly between base and mark form an empty set, so
the claim predicts the mark's final x_offset equals the base's (0) — but the
code sums the half-open range [base, mark), which includes the base's own
advance, and the mark ends at x_offset = -100. -/
theorem mark_anchor_offsets_cex :
    calculate_glyph_positions envHundred infosMarkAfterBase .leftToRight false
      = .ok psMarkAfterBase ∧
    ¬((psMarkAfterBase.getD 1 default).x_offset
        = (psMarkAfterBase.getD 0 default).x_offset + 0) := by
  refine ⟨by decide, by decide⟩

/-- C2 witness: the amended offset equation at the concrete base+mark pair. -/
theorem mark_anchor_offsets_witness :
    ((psMarkAfterBase.getD 1 default).x_offset
        = (psMarkAfterBase.getD 0 default).x_offset
          + ((⟨0, 0⟩ : AnchorPoint).x - (⟨0, 0⟩ : AnchorPoint).x)
          + (placementDistance (infosMarkAfterBase.getD 0 default).placement).1
          + (match TextDirection.leftToRight with
             | TextDirection.leftToRight => -(sum_advance (rangeGet psMarkAfterBase 0 1)).1
             | TextDirection.rightToLeft => (sum_advance (rangeGet psMarkAfterBase 1 0)).1) ∧
     (psMarkAfterBase.getD 1 default).y_offset
        = (psMarkAfterBase.getD 0 default).y_offset
          + ((⟨0, 0⟩ : AnchorPoint).y - (⟨0, 0⟩ : AnchorPoint).y)
          + (placementDistance (infosMarkAfterBase.getD 0 default).placement).2
          + (match TextDirection.leftToRight with
             | TextDirection.leftToRight => -(sum_advance (rangeGet psMarkAfterBase 0 1)).2
             | TextDirection.rightToLeft => (sum_advance (rangeGet psMarkAfterBase 1 0)).2)) ∧
    (∀ (qs : List GlyphPosition) (a b : Nat), b ≤ a ∨ qs.length < b →
      sum_advance (rangeGet qs a b) = (0, 0)) :=
  @mark_anchor_offsets envHundred infosMarkAfterBase TextDirection.leftToRight false
    psMarkAfterBase 1 0 ⟨0, 0⟩ ⟨0, 0⟩
    (mkInfo 1 (Attachment.markAnchor 0 ⟨0, 0⟩ ⟨0, 0⟩) Placement.none)
    (by decide) (by decide) (by decide) (by decide) (Or.inl (by decide))

/-! ### C9: reference-mode path closing -/

theorem digitChar_ne_space (n : Nat) : digitChar n ≠ ' ' := by
  unfold digitChar
  have hr : n % 10 < 10 := Nat.mod_lt _ (by omega)
  generalize n % 10 = r at hr ⊢
  interval_cases r <;> decide

theorem natDigitsAux_no_space (fuel : Nat) : ∀ n, ∀ c ∈ natDigitsAux fuel n, c ≠ ' ' := by
  induction fuel with
  | zero =>
    intro n c hc
    rw [natDigitsAux] at hc
    rw [List.mem_singleton.mp hc]
    exact digitChar_ne_space n
  | succ fuel ih =>
    intro n c hc
    rw [natDigitsAux] at hc
    by_cases h10 : n < 10
    · rw [if_pos h10] at hc
      rw [List.mem_singleton.mp hc]
      exact digitChar_ne_space n
    · rw [if_neg h10] at hc
      rcases List.mem_append.mp hc with hc1 | hc2
      · exact ih (n / 10) c hc1
      · rw [List.mem_singleton.mp hc2]
        exact digitChar_ne_space (n % 10)

theorem natDigits_no_space (n : Nat) : ∀ c ∈ natDigits n, c ≠ ' ' :=
  natDigitsAux_no_space n n

theorem fmtInt_no_space (i : Int) : ∀ c ∈ fmtInt i, c ≠ ' ' := by
  unfold fmtInt
  split
  · intro c hc
    rcases List.mem_cons.mp hc with rfl | hc2
    · decide
    · exact natDigits_no_space _ c hc2
  · exact natDigits_no_space _

theorem rfindLL_none_of_no_space (l : List Char) (h : ∀ c ∈ l, c ≠ ' ') :
    rfindLL l = Option.none := by
  induction l with
  | nil => rfl
  | cons a tl ih =>
    cases tl with
    | nil => rfl
    | cons b rest =>
      unfold rfindLL
      rw [ih (fun c hc => h c (List.mem_cons_of_mem _ hc))]
      have ha : a ≠ ' ' := h a (List.mem_cons_self _ _)
      simp [ha]

theorem rfindLL_append (p0 : List Char) (coords : List Char)
    (hcoords : ∀ c ∈ coords, c ≠ ' ') :
    rfindLL (p0 ++ ' ' :: 'L' :: coords) = some p0.length := by
  induction p0 with
  | nil =>
    show rfindLL (' ' :: 'L' :: coords) = some 0
    have htail : rfindLL ('L' :: coords) = Option.none := by
      apply rfindLL_none_of_no_space
      intro c hc
      rcases List.mem_cons.mp hc with rfl | hc2
      · decide
      · exact hcoords c hc2
    cases coords with
    | nil => rfl
    | cons b rest =>
      unfold rfindLL
      rw [htail]
      simp
  | cons a tl ih =>
    show rfindLL (a :: (tl ++ ' ' :: 'L' :: coords)) = some (tl.length + 1)
    cases hl : tl ++ ' ' :: 'L' :: coords with
    | nil => simp at hl
    | cons b rest =>
      rw [hl] at ih
      unfold rfindLL
      rw [ih]

theorem updateLastPath_append_singleton (init : List SymbolE) (sym : SymbolE)
    (f : List Char → List Char) :
    updateLastPath (init ++ [sym]) f = init ++ [{ sym with path := f sym.path }] := by
  induction init with
  | nil => rfl
  | cons a tl ih =>
    cases hl : tl ++ [sym] with
    | nil => simp at hl
    | cons b rest =>
      show updateLastPath (a :: (tl ++ [sym])) f = _
      rw [hl]
      show a :: updateLastPath (b :: rest) f = _
      rw [← hl, ih]
      simp

theorem chunkLI_coords_no_space (pt : Int × Int) :
    ∀ c ∈ fmtInt pt.1 ++ ',' :: fmtInt pt.2, c ≠ ' ' := by
  intro c hc
  rcases List.mem_append.mp hc with hc1 | hc2
  · exact fmtInt_no_space _ c hc1
  · rcases List.mem_cons.mp hc2 with rfl | hc3
    · decide
    · exact fmtInt_no_space _ c hc3

/-- C9: closing a contour right after a line-to. In TextRenderingTests mode,
when the truncated line-to point equals the recorded initial move-to point,
close removes the trailing " L{},{}" chunk the line-to appended and emits
" Z" only; in View mode the line-to chunk is retained before " Z". -/
theorem close_suppresses_trailing_line :
    (∀ (tr : Mat2) (idPfx : String) (init : List SymbolE) (sym : SymbolE)
        (imt : Int × Int) (llt : Option (Int × Int)) (p : ℚ × ℚ),
      truncPt (tr.apply p) = imt →
      (sinkStep (sinkStep ⟨tr, init ++ [sym], SVGMode.textRenderingTests idPfx, imt, llt⟩
          (OutlineEvent.lineTo p)) OutlineEvent.close).symbols
        = init ++ [{ sym with path := sym.path ++ [' ', 'Z'] }]) ∧
    (∀ (tr : Mat2) (mo : Bool) (mg : Margin) (fg bg : Option Colour)
        (init : List SymbolE) (sym : SymbolE)
        (imt : Int × Int) (llt : Option (Int × Int)) (p : ℚ × ℚ),
      (sinkStep (sinkStep ⟨tr, init ++ [sym], SVGMode.view mo mg fg bg, imt, llt⟩
          (OutlineEvent.lineTo p)) OutlineEvent.close).symbols
        = init ++ [{ sym with path := (sym.path ++ chunkLQ (tr.apply p)) ++ [' ', 'Z'] }]) := by
  constructor
  · intro tr idPfx init sym imt llt p htrunc
    have h1 : sinkStep ⟨tr, init ++ [sym], SVGMode.textRenderingTests idPfx, imt, llt⟩
        (OutlineEvent.lineTo p)
        = ⟨tr, updateLastPath (init ++ [sym]) (fun path => path ++ chunkLI imt),
           SVGMode.textRenderingTests idPfx, imt, some imt⟩ := by
      simp only [sinkStep]
      rw [htrunc]
    rw [h1]
    simp only [sinkStep, if_true]
    rw [updateLastPath_append_singleton, updateLastPath_append_singleton,
      updateLastPath_append_singleton]
    have hfind : rfindLL (sym.path ++ chunkLI imt) = some sym.path.length := by
      show rfindLL (sym.path ++ ' ' :: 'L' :: (fmtInt imt.1 ++ ',' :: fmtInt imt.2))
        = some sym.path.length
      exact rfindLL_append _ _ (chunkLI_coords_no_space imt)
    simp only [hfind]
    have htake : (sym.path ++ chunkLI imt).take sym.path.length = sym.path := by
      rw [List.take_left]
    rw [htake]
  · intro tr mo mg fg bg init sym imt llt p
    show updateLastPath (updateLastPath (init ++ [sym]) (fun path => path ++ chunkLQ (tr.apply p)))
        (fun path => path ++ [' ', 'Z']) = _
    rw [updateLastPath_append_singleton, updateLastPath_append_singleton]

/-- C9 witness: a concrete (1/2, 1/3) line-to truncating back onto the (0,0)
move-to point is suppressed in reference-test mode and retained in View mode. -/
theorem close_suppresses_trailing_line_witness :
    (sinkStep (sinkStep ⟨idMat, [] ++ [⟨"g", [' ', 'M', '0', ',', '0'], default, Option.none⟩],
        SVGMode.textRenderingTests "tc", (0, 0), Option.none⟩
        (OutlineEvent.lineTo (mkRat 1 2, mkRat 1 3))) OutlineEvent.close).symbols
      = [] ++ [{ (⟨"g", [' ', 'M', '0', ',', '0'], default, Option.none⟩ : SymbolE) with
          path := [' ', 'M', '0', ',', '0'] ++ [' ', 'Z'] }] ∧
    (sinkStep (sinkStep ⟨idMat, [] ++ [⟨"g", [' ', 'M', '0', ',', '0'], default, Option.none⟩],
        viewPlain, (0, 0), Option.none⟩
        (OutlineEvent.lineTo (mkRat 1 2, mkRat 1 3))) OutlineEvent.close).symbols
      = [] ++ [{ (⟨"g", [' ', 'M', '0', ',', '0'], default, Option.none⟩ : SymbolE) with
          path := ([' ', 'M', '0', ',', '0'] ++ chunkLQ (idMat.apply (mkRat 1 2, mkRat 1 3)))
            ++ [' ', 'Z'] }] := by
  constructor
  · exact close_suppresses_trailing_line.1 idMat "tc" []
      ⟨"g", [' ', 'M', '0', ',', '0'], default, Option.none⟩ (0, 0) Option.none
      (mkRat 1 2, mkRat 1 3) (by decide)
  · exact close_suppresses_trailing_line.2 idMat false ⟨0, 0, 0, 0⟩ Option.none Option.none []
      ⟨"g", [' ', 'M', '0', ',', '0'], default, Option.none⟩ (0, 0) Option.none
      (mkRat 1 2, mkRat 1 3)

/-! ### C8: symbol deduplication -/

theorem length_updateLastPath (l : List SymbolE) (f : List Char → List Char) :
    (updateLastPath l f).length = l.length := by
  induction l with
  | nil => rfl
  | cons a tl ih =>
    cases tl with
    | nil => rfl
    | cons b rest =>
      show (a :: updateLastPath (b :: rest) f).length = _
      simp only [List.length_cons, ih]

theorem length_sinkStep (s : Symbols) (e : OutlineEvent) :
    (sinkStep s e).symbols.length = s.symbols.length := by
  unfold sinkStep
  repeat' split
  all_goals simp [length_updateLastPath]

theorem length_foldl_sinkStep (events : List OutlineEvent) (s : Symbols) :
    (events.foldl sinkStep s).symbols.length = s.symbols.length := by
  induction events generalizing s with
  | nil => rfl
  | cons e rest ih =>
    rw [List.foldl_cons, ih, length_sinkStep]

theorem length_annotateAt (s : Symbols) (index : Nat) (p : ℚ × ℚ) :
    (s.annotateAt index p).symbols.length = s.symbols.length := by
  unfold Symbols.annotateAt
  split
  · simp [List.length_set]
  · rfl

theorem lookupSym_insert_self (m : List (Nat × Nat)) (k v : Nat) :
    lookupSym (insertSym m k v) k = some v := by
  simp [lookupSym, insertSym, List.find?]

theorem lookupSym_insert_ne (m : List (Nat × Nat)) (k v g : Nat) (h : g ≠ k) :
    lookupSym (insertSym m k v) g = lookupSym m g := by
  simp only [lookupSym, insertSym, List.find?]
  rw [show ((k, v).1 == g) = false by simpa using (Ne.symm h)]

theorem glyphsToSvgLoop_inv (builder : OutlineSource)
    (pairs : List (Info × GlyphPosition)) :
    ∀ (st st' : LoopState),
    glyphsToSvgLoop builder pairs st = .ok st' →
    (∀ g, (lookupSym st.symbol_map g).isSome = true ↔ g ∈ st.visits) →
    st.visits.Nodup →
    st.symbols.symbols.length = st.visits.length →
    (st'.writer.usage.length = st.writer.usage.length + pairs.length ∧
     st'.visits.Nodup ∧
     st'.symbols.symbols.length = st'.visits.length ∧
     (∀ g, (lookupSym st'.symbol_map g).isSome = true ↔ g ∈ st'.visits) ∧
     (∀ g, g ∈ st'.visits ↔
        (g ∈ st.visits ∨ g ∈ pairs.map (fun pr => pr.1.glyph_index)))) := by
  induction pairs with
  | nil =>
    intro st st' h hmap hnodup hlen
    cases h
    exact ⟨by simp, hnodup, hlen, hmap, fun g => by simp⟩
  | cons pr rest ih =>
    intro st st' h hmap hnodup hlen
    unfold glyphsToSvgLoop at h
    split at h
    · next st1 heqstep =>
      cases hlook : lookupSym st.symbol_map pr.1.glyph_index with
      | some si =>
        -- repeat encounter: only a use placement is added
        simp only [glyphsToSvgStep, hlook] at heqstep
        have hst1 := (Except.ok.inj heqstep).symm
        have hg0 : pr.1.glyph_index ∈ st.visits := by
          apply (hmap pr.1.glyph_index).mp
          rw [hlook]
          rfl
        have hmap1 : ∀ g, (lookupSym st1.symbol_map g).isSome = true ↔ g ∈ st1.visits := by
          rw [hst1]
          exact hmap
        have hnodup1 : st1.visits.Nodup := by rw [hst1]; exact hnodup
        have hlen1 : st1.symbols.symbols.length = st1.visits.length := by
          rw [hst1]
          exact hlen
        obtain ⟨c1, c2, c3, c4, c5⟩ := ih st1 st' h hmap1 hnodup1 hlen1
        refine ⟨?_, c2, c3, c4, ?_⟩
        · rw [c1, hst1]
          simp [use_glyph]
          omega
        · intro g
          rw [c5 g, hst1]
          simp only [List.map_cons, List.mem_cons]
          constructor
          · rintro (hl | hr)
            · exact Or.inl hl
            · exact Or.inr (Or.inr hr)
          · rintro (hl | rfl | hr)
            · exact Or.inl hl
            · exact Or.inl hg0
            · exact Or.inr hr
      | none =>
        -- first encounter: symbol created, outline visited, use placed
        cases heqv : builder.visit pr.1.glyph_index with
        | error e => simp [glyphsToSvgStep, hlook, heqv] at heqstep
        | ok events =>
          simp only [glyphsToSvgStep, hlook, heqv] at heqstep
          have hst1 := (Except.ok.inj heqstep).symm
          have hg0new : pr.1.glyph_index ∉ st.visits := by
            intro hmem
            have := (hmap pr.1.glyph_index).mpr hmem
            rw [hlook] at this
            cases this
          have hmap1 : ∀ g, (lookupSym st1.symbol_map g).isSome = true ↔ g ∈ st1.visits := by
            intro g
            rw [hst1]
            simp only []
            by_cases hgg : g = pr.1.glyph_index
            · subst hgg
              rw [lookupSym_insert_self]
              simp
            · rw [lookupSym_insert_ne _ _ _ _ hgg]
              rw [hmap g]
              simp [List.mem_append, hgg]
          have hnodup1 : st1.visits.Nodup := by
            rw [hst1]
            simp only []
            rw [List.nodup_append]
            exact ⟨hnodup, List.nodup_singleton _, by simpa using hg0new⟩
          have hlen1 : st1.symbols.symbols.length = st1.visits.length := by
            rw [hst1]
            simp only []
            split
            · rw [length_annotateAt, length_foldl_sinkStep]
              simp [Symbols.new_glyph, hlen]
            · rw [length_foldl_sinkStep]
              simp [Symbols.new_glyph, hlen]
          obtain ⟨c1, c2, c3, c4, c5⟩ := ih st1 st' h hmap1 hnodup1 hlen1
          refine ⟨?_, c2, c3, c4, ?_⟩
          · rw [c1, hst1]
            simp [use_glyph]
            omega
          · intro g
            rw [c5 g, hst1]
            simp only [List.map_cons, List.mem_cons, List.mem_append,
              List.mem_singleton]
            tauto
    · cases h

/-- C8: for any input pairing, the writer loop records one use placement per
input glyph, invokes the outline collaborator at most once per distinct glyph
index (the visit log is duplicate-free), keeps exactly one symbol per visited
index, and visits exactly the glyph indices present in the input — so a
repeated glyph index yields one symbol definition and one use per occurrence. -/
theorem symbol_dedup (builder : OutlineSource) (mode : SVGMode) (tr : Mat2)
    (pairs : List (Info × GlyphPosition)) (st' : LoopState)
    (hok : glyphsToSvgLoop builder pairs
      ⟨⟨mode, tr, []⟩, ⟨tr, [], mode, (0, 0), Option.none⟩, [], 0, 0, []⟩ = .ok st') :
    st'.writer.usage.length = pairs.length ∧
    st'.visits.Nodup ∧
    st'.symbols.symbols.length = st'.visits.length ∧
    (∀ g, g ∈ st'.visits ↔ g ∈ pairs.map (fun pr => pr.1.glyph_index)) := by
  obtain ⟨c1, c2, c3, _, c5⟩ := glyphsToSvgLoop_inv builder pairs _ st' hok
    (fun g => by simp [lookupSym]) (List.nodup_nil) rfl
  refine ⟨by simpa using c1, c2, c3, fun g => ?_⟩
  rw [c5 g]
  simp

/-- C8 witness: one plain glyph through the loop yields one use, one visit,
one symbol. -/
theorem symbol_dedup_witness :
    loopStateSingle.writer.usage.length = pairsSingle.length ∧
    loopStateSingle.visits.Nodup ∧
    loopStateSingle.symbols.symbols.length = loopStateSingle.visits.length ∧
    (∀ g, g ∈ loopStateSingle.visits ↔
      g ∈ pairsSingle.map (fun pr => pr.1.glyph_index)) :=
  symbol_dedup builderEmpty trtMode idMat pairsSingle loopStateSingle (by decide)


/-! ### C7: determinism of the resolve + write pipeline -/

theorem glyphsToSvgLoop_mode (builder : OutlineSource)
    (pairs : List (Info × GlyphPosition)) (st st' : LoopState)
    (h : glyphsToSvgLoop builder pairs st = .ok st') :
    st'.writer.mode = st.writer.mode := by
  induction pairs generalizing st with
  | nil => cases h; rfl
  | cons pr rest ih =>
    rw [glyphsToSvgLoop] at h
    cases hstep : glyphsToSvgStep builder st pr with
    | error e => rw [hstep] at h; cases h
    | ok st1 =>
      rw [hstep] at h
      have hm1 : st1.writer.mode = st.writer.mode := by
        cases hlook : lookupSym st.symbol_map pr.1.glyph_index with
        | some si => simp only [glyphsToSvgStep, hlook] at hstep; cases hstep; rfl
        | none =>
          cases heqv : builder.visit pr.1.glyph_index with
          | error e =>
            simp only [glyphsToSvgStep, hlook, heqv] at hstep
            cases hstep
          | ok evs =>
            simp only [glyphsToSvgStep, hlook, heqv] at hstep
            cases hstep; rfl
      rw [ih st1 h, hm1]

/-- C7 counterexample: identity and reversal are both permutations of the
symbol-data entry list (valid HashMap iteration orders), yet in View mode the
same immutable inputs serialize to two different SVG strings under them — the
data attributes of a symbol element come out in map iteration order. -/
theorem svg_determinism_cex :
    (∀ l : List (String × String), List.Perm ((fun l => l : DataOrder) l) l) ∧
    (∀ l : List (String × String), List.Perm ((List.reverse : DataOrder) l) l) ∧
    glyphs_to_svg viewPlain idMat (fun l => l) builderEmpty envTen infosSingle
      TextDirection.leftToRight ≠
    glyphs_to_svg viewPlain idMat List.reverse builderEmpty envTen infosSingle
      TextDirection.leftToRight :=
  ⟨fun l => List.Perm.refl l, fun l => List.reverse_perm l, by decide⟩

/-- C7: in reference-test (TextRenderingTests) mode the pipeline is
deterministic: for any two HashMap iteration orders (any functions that
permute their input entry list), running position resolution plus SVG writing
on the same immutable inputs yields byte-identical output strings. -/
theorem svg_trt_deterministic (pfx : String) (transform : Mat2)
    (ord1 ord2 : DataOrder) (builder : OutlineSource) (env : FontEnv)
    (infos : List Info) (direction : TextDirection)
    (hp1 : ∀ l, List.Perm (ord1 l) l) (hp2 : ∀ l, List.Perm (ord2 l) l) :
    glyphs_to_svg (SVGMode.textRenderingTests pfx) transform ord1 builder env infos direction =
    glyphs_to_svg (SVGMode.textRenderingTests pfx) transform ord2 builder env infos direction := by
  have h1 : ord1 [] = [] := List.Perm.eq_nil (hp1 [])
  have h2 : ord2 [] = [] := List.Perm.eq_nil (hp2 [])
  have hend : ∀ st : LoopState,
      st.writer.mode = SVGMode.textRenderingTests pfx →
      endDoc st.writer ord1 st.x env.ascender env.descender st.symbols =
      endDoc st.writer ord2 st.x env.ascender env.descender st.symbols := by
    intro st hmode
    have hsym : ∀ sym : SymbolE,
        renderSymbol st.writer.mode ord1 st.writer.transform sym =
        renderSymbol st.writer.mode ord2 st.writer.transform sym := by
      intro sym
      rw [hmode]
      simp only [renderSymbol, SymbolE.dataList, h1, h2]
    have hmap : st.symbols.symbols.map (renderSymbol st.writer.mode ord1 st.writer.transform) =
        st.symbols.symbols.map (renderSymbol st.writer.mode ord2 st.writer.transform) :=
      List.map_congr_left (fun sym _ => hsym sym)
    simp only [endDoc]
    rw [hmap]
  cases hcalc : calculate_glyph_positions env infos direction false with
  | error e => simp only [glyphs_to_svg, hcalc]
  | ok gp =>
    cases direction with
    | leftToRight =>
      simp only [glyphs_to_svg, hcalc]
      cases hloop : glyphsToSvgLoop builder (infos.zip gp)
          ⟨⟨SVGMode.textRenderingTests pfx, transform, []⟩,
           ⟨transform, [], SVGMode.textRenderingTests pfx, (0, 0), Option.none⟩,
           [], 0, 0, []⟩ with
      | error e => rfl
      | ok st =>
        have hmode : st.writer.mode = SVGMode.textRenderingTests pfx :=
          glyphsToSvgLoop_mode builder _ _ st hloop
        exact congrArg Except.ok (hend st hmode)
    | rightToLeft =>
      simp only [glyphs_to_svg, hcalc]
      cases hloop : glyphsToSvgLoop builder (infos.zip gp).reverse
          ⟨⟨SVGMode.textRenderingTests pfx, transform, []⟩,
           ⟨transform, [], SVGMode.textRenderingTests pfx, (0, 0), Option.none⟩,
           [], 0, 0, []⟩ with
      | error e => rfl
      | ok st =>
        have hmode : st.writer.mode = SVGMode.textRenderingTests pfx :=
          glyphsToSvgLoop_mode builder _ _ st hloop
        exact congrArg Except.ok (hend st hmode)

/-- C7 witness: identity and reversal iteration orders give the same
reference-test-mode SVG for a concrete one-glyph input. -/
theorem svg_trt_deterministic_witness :
    glyphs_to_svg (SVGMode.textRenderingTests "tc") idMat (fun l => l) builderLine envTen
      infosSingle TextDirection.leftToRight =
    glyphs_to_svg (SVGMode.textRenderingTests "tc") idMat List.reverse builderLine envTen
      infosSingle TextDirection.leftToRight :=
  svg_trt_deterministic "tc" idMat (fun l => l) List.reverse builderLine envTen infosSingle
    TextDirection.leftToRight (fun l => List.Perm.refl l) (fun l => List.reverse_perm l)

end AllsortsTools
